import Mathlib

/-!
Shallow embedding of the retrieval-augmented query engine and its LLM
invocation layer (core/llm_client.py, core/rag.py, utils/config.py of the
repository), together with theorems settling the specification claims.

The remote Groq API and the ChromaDB vector store are external
collaborators; they are modelled as oracles indexed by call number, so the
embedded functions are deterministic state-passing translations of the
Python source.  Floating-point numbers are modelled as rationals.
-/

namespace LLMClient

/-- From utils/config.py: LLM_MAX_RETRIES = 3. -/
def LLM_MAX_RETRIES : Nat := 3

/-- From utils/config.py: LLM_RETRY_BASE_DELAY = 1.0 (seconds, modelled as a rational). -/
def LLM_RETRY_BASE_DELAY : ℚ := 1

/-- From utils/config.py: primary model id. -/
def LLM_MODEL : String := "llama-3.3-70b-versatile"

/-- From utils/config.py: fallback model id. -/
def LLM_FALLBACK_MODEL : String := "llama-3.1-8b-instant"

/-- Outcome of one physical request to the remote chat-completion API
(client.chat.completions.create in _call_with_retry).  A success carries the
response fields used by complete(); rateLimit models groq.RateLimitError;
apiStatus models groq.APIStatusError with the given HTTP status code
(non-rate-limit). -/
inductive Outcome where
  | success (text model : String) (promptTokens completionTokens totalTokens : Nat)
  | rateLimit
  | apiStatus (code : Nat)
deriving DecidableEq

/-- The remote API as an oracle: the outcome of the k-th request made by this
logical complete() call. -/
abbrev Oracle := Nat → Outcome

/-- Observable side effects of the client: an outbound request naming the
model attempted, or a backoff sleep with its delay in seconds. -/
inductive Event where
  | request (model : String)
  | sleep (delay : ℚ)
deriving DecidableEq

/-- State threaded through the embedded client: number of requests made so
far (the oracle index) and the trace of observable events in order. -/
structure CallState where
  k : Nat
  trace : List Event
deriving DecidableEq

/-- Exceptions raised by the Groq SDK, as caught in llm_client.py. -/
inductive GroqError where
  | rateLimit
  | apiStatus (code : Nat)
deriving DecidableEq

/-- The fields of a successful chat completion that complete() reads:
choices[0].message.content (already coalesced with the empty string),
response.model, and the three usage counters. -/
structure ChatResponse where
  text : String
  model : String
  promptTokens : Nat
  completionTokens : Nat
  totalTokens : Nat
deriving DecidableEq

/-- One request to the API: consumes the next oracle outcome, records the
request event, and either returns the response or raises the error. -/
def apiCall (oracle : Oracle) (model : String) (s : CallState) :
    Except GroqError ChatResponse × CallState :=
  let s1 : CallState := ⟨s.k + 1, s.trace ++ [Event.request model]⟩
  match oracle s.k with
  | Outcome.success t m pt ct tt => (Except.ok ⟨t, m, pt, ct, tt⟩, s1)
  | Outcome.rateLimit => (Except.error GroqError.rateLimit, s1)
  | Outcome.apiStatus c => (Except.error (GroqError.apiStatus c), s1)

/-- The retry loop of _call_with_retry (llm_client.py lines 53-85).
attempt is the 0-based loop counter; remaining is the number of loop
iterations still allowed including the current one, so the Python loop
condition attempt < LLM_MAX_RETRIES (more attempts to come) is 0 < remaining
after consuming the current iteration.  last is last_error; Python
initialises it to None, which is never raised because the loop body runs at
least once, so the initial value passed by callWithRetry is immaterial.
Rate limits and server errors (status ≥ 500) are retried after an
exponential-backoff sleep of LLM_RETRY_BASE_DELAY * 2 ^ attempt; other
status errors are raised immediately. -/
def callAttempts (oracle : Oracle) (model : String) :
    Nat → Nat → GroqError → CallState → Except GroqError ChatResponse × CallState
  | _, 0, last, s => (Except.error last, s)
  | attempt, remaining + 1, _, s =>
    match apiCall oracle model s with
    | (Except.ok r, s1) => (Except.ok r, s1)
    | (Except.error GroqError.rateLimit, s1) =>
      if 0 < remaining then
        callAttempts oracle model (attempt + 1) remaining GroqError.rateLimit
          ⟨s1.k, s1.trace ++ [Event.sleep (LLM_RETRY_BASE_DELAY * 2 ^ attempt)]⟩
      else
        callAttempts oracle model (attempt + 1) remaining GroqError.rateLimit s1
    | (Except.error (GroqError.apiStatus c), s1) =>
      if 500 ≤ c then
        if 0 < remaining then
          callAttempts oracle model (attempt + 1) remaining (GroqError.apiStatus c)
            ⟨s1.k, s1.trace ++ [Event.sleep (LLM_RETRY_BASE_DELAY * 2 ^ attempt)]⟩
        else
          callAttempts oracle model (attempt + 1) remaining (GroqError.apiStatus c) s1
      else
        (Except.error (GroqError.apiStatus c), s1)

/-- _call_with_retry (llm_client.py): up to LLM_MAX_RETRIES + 1 attempts. -/
def callWithRetry (oracle : Oracle) (model : String) (s : CallState) :
    Except GroqError ChatResponse × CallState :=
  callAttempts oracle model 0 (LLM_MAX_RETRIES + 1) GroqError.rateLimit s

/-- core/models.py LLMResponse, with the usage dict expanded into its three
counters. -/
structure LLMResponse where
  text : String
  model : String
  promptTokens : Nat
  completionTokens : Nat
  totalTokens : Nat
  fallback_used : Bool
deriving DecidableEq

/-- Value returned by complete(): a structured response, or (stream=True) a
generator whose content is outside this model. -/
inductive CompleteResult where
  | response (r : LLMResponse)
  | streamed
deriving DecidableEq

/-- Exception surface of complete() towards its caller: a raw Groq SDK error
escaping as itself, or models.LLMUnavailableError carrying its cause (the
chained exception of the raise ... from e).  The embedding shows complete
only ever produces the unavailable form. -/
inductive CompleteError where
  | groq (e : GroqError)
  | unavailable (last : Option GroqError)
deriving DecidableEq

/-- Python str.strip(): drop whitespace from both ends.  Modelled over the
character list so that it evaluates structurally. -/
def pyStrip (s : String) : String :=
  String.mk (((s.data.dropWhile Char.isWhitespace).reverse.dropWhile Char.isWhitespace).reverse)

/-- The body of the per-model loop iteration of complete() (llm_client.py
lines 120-151 up to the except clause): call _call_with_retry; on success,
return the stream, or extract the text; if the text is blank
(not text.strip()), retry once against the same model with stream=False and
accept whatever comes back; package the LLMResponse from the last response
with fallback_used := is_fallback.  Any GroqError escapes to the caller
(the except clause of complete). -/
def attemptModel (oracle : Oracle) (model : String) (isFallback stream : Bool) (s : CallState) :
    Except GroqError CompleteResult × CallState :=
  match callWithRetry oracle model s with
  | (Except.error e, s1) => (Except.error e, s1)
  | (Except.ok r, s1) =>
    if stream then (Except.ok CompleteResult.streamed, s1)
    else if pyStrip r.text = "" then
      match callWithRetry oracle model s1 with
      | (Except.error e, s2) => (Except.error e, s2)
      | (Except.ok r2, s2) =>
        (Except.ok (CompleteResult.response
          ⟨r2.text, r2.model, r2.promptTokens, r2.completionTokens, r2.totalTokens, isFallback⟩), s2)
    else
      (Except.ok (CompleteResult.response
        ⟨r.text, r.model, r.promptTokens, r.completionTokens, r.totalTokens, isFallback⟩), s1)

/-- complete (llm_client.py lines 88-153): attempt the primary model, then
the fallback model, in that fixed order; an error on the primary continues
to the fallback, an error on the fallback raises LLMUnavailableError chained
from it. -/
def complete (oracle : Oracle) (stream : Bool) (s : CallState) :
    Except CompleteError CompleteResult × CallState :=
  match attemptModel oracle LLM_MODEL false stream s with
  | (Except.ok res, s1) => (Except.ok res, s1)
  | (Except.error _, s1) =>
    match attemptModel oracle LLM_FALLBACK_MODEL true stream s1 with
    | (Except.ok res, s2) => (Except.ok res, s2)
    | (Except.error e, s2) => (Except.error (CompleteError.unavailable (some e)), s2)

/-- An outcome the retry loop treats as transient: a rate limit or a server
error with status ≥ 500. -/
def Outcome.retryable : Outcome → Prop
  | Outcome.success _ _ _ _ _ => False
  | Outcome.rateLimit => True
  | Outcome.apiStatus c => 500 ≤ c

theorem callAttempts_step_success (oracle : Oracle) (model : String)
    (attempt rem : Nat) (last : GroqError) (s : CallState)
    (t m : String) (pt ct tt : Nat)
    (hx : oracle s.k = Outcome.success t m pt ct tt) :
    callAttempts oracle model attempt (rem + 1) last s =
      (Except.ok ⟨t, m, pt, ct, tt⟩, ⟨s.k + 1, s.trace ++ [Event.request model]⟩) := by
  simp only [callAttempts, apiCall, hx]

theorem callAttempts_step_rateLimit_more (oracle : Oracle) (model : String)
    (attempt rem : Nat) (last : GroqError) (s : CallState)
    (hx : oracle s.k = Outcome.rateLimit) (hrem : 0 < rem) :
    callAttempts oracle model attempt (rem + 1) last s =
      callAttempts oracle model (attempt + 1) rem GroqError.rateLimit
        ⟨s.k + 1, s.trace ++ [Event.request model,
          Event.sleep (LLM_RETRY_BASE_DELAY * 2 ^ attempt)]⟩ := by
  simp only [callAttempts, apiCall, hx, if_pos hrem, List.append_assoc, List.singleton_append]

theorem callAttempts_step_rateLimit_last (oracle : Oracle) (model : String)
    (attempt : Nat) (last : GroqError) (s : CallState)
    (hx : oracle s.k = Outcome.rateLimit) :
    callAttempts oracle model attempt 1 last s =
      (Except.error GroqError.rateLimit, ⟨s.k + 1, s.trace ++ [Event.request model]⟩) := by
  simp only [callAttempts, apiCall, hx]
  norm_num

theorem callAttempts_step_server_more (oracle : Oracle) (model : String)
    (attempt rem : Nat) (last : GroqError) (s : CallState) (c : Nat)
    (hx : oracle s.k = Outcome.apiStatus c) (hc : 500 ≤ c) (hrem : 0 < rem) :
    callAttempts oracle model attempt (rem + 1) last s =
      callAttempts oracle model (attempt + 1) rem (GroqError.apiStatus c)
        ⟨s.k + 1, s.trace ++ [Event.request model,
          Event.sleep (LLM_RETRY_BASE_DELAY * 2 ^ attempt)]⟩ := by
  simp only [callAttempts, apiCall, hx, if_pos hc, if_pos hrem, List.append_assoc,
    List.singleton_append]

theorem callAttempts_step_server_last (oracle : Oracle) (model : String)
    (attempt : Nat) (last : GroqError) (s : CallState) (c : Nat)
    (hx : oracle s.k = Outcome.apiStatus c) (hc : 500 ≤ c) :
    callAttempts oracle model attempt 1 last s =
      (Except.error (GroqError.apiStatus c), ⟨s.k + 1, s.trace ++ [Event.request model]⟩) := by
  simp only [callAttempts, apiCall, hx, if_pos hc]
  norm_num

theorem callAttempts_step_client (oracle : Oracle) (model : String)
    (attempt rem : Nat) (last : GroqError) (s : CallState) (c : Nat)
    (hx : oracle s.k = Outcome.apiStatus c) (hc : c < 500) :
    callAttempts oracle model attempt (rem + 1) last s =
      (Except.error (GroqError.apiStatus c), ⟨s.k + 1, s.trace ++ [Event.request model]⟩) := by
  simp only [callAttempts, apiCall, hx, if_neg (by omega : ¬ 500 ≤ c)]

/-- A run of j transient failures followed by a success is accepted after
exactly j + 1 requests. -/
theorem callAttempts_success (oracle : Oracle) (model : String)
    (t m : String) (pt ct tt : Nat) :
    ∀ (j attempt remaining : Nat) (last : GroqError) (s : CallState),
      j < remaining →
      (∀ i, i < j → (oracle (s.k + i)).retryable) →
      oracle (s.k + j) = Outcome.success t m pt ct tt →
      ∃ s2 : CallState,
        callAttempts oracle model attempt remaining last s =
          (Except.ok ⟨t, m, pt, ct, tt⟩, s2) ∧
        s2.k = s.k + j + 1 := by
  intro j
  induction j with
  | zero =>
    intro attempt remaining last s hlt _ hsucc
    obtain ⟨rem, rfl⟩ : ∃ rem, remaining = rem + 1 := ⟨remaining - 1, by omega⟩
    exact ⟨⟨s.k + 1, s.trace ++ [Event.request model]⟩,
      callAttempts_step_success oracle model attempt rem last s t m pt ct tt
        (by simpa using hsucc), rfl⟩
  | succ j ih =>
    intro attempt remaining last s hlt hfail hsucc
    obtain ⟨rem, rfl⟩ : ∃ rem, remaining = rem + 1 := ⟨remaining - 1, by omega⟩
    have hrem : 0 < rem := by omega
    have h0 : (oracle s.k).retryable := by simpa using hfail 0 (by omega)
    have hshift : ∀ i, i < j → (oracle (s.k + 1 + i)).retryable := by
      intro i hi
      have := hfail (i + 1) (by omega)
      simpa [Nat.add_assoc, Nat.add_comm 1 i] using this
    have hsucc1 : oracle (s.k + 1 + j) = Outcome.success t m pt ct tt := by
      have : s.k + 1 + j = s.k + (j + 1) := by omega
      rw [this]; exact hsucc
    cases hx : oracle s.k with
    | success t0 m0 pt0 ct0 tt0 => rw [hx] at h0; simp [Outcome.retryable] at h0
    | rateLimit =>
      rw [callAttempts_step_rateLimit_more oracle model attempt rem last s hx hrem]
      obtain ⟨s2, heq, hk⟩ := ih (attempt + 1) rem GroqError.rateLimit
        ⟨s.k + 1, s.trace ++ [Event.request model,
          Event.sleep (LLM_RETRY_BASE_DELAY * 2 ^ attempt)]⟩
        (by omega) hshift hsucc1
      exact ⟨s2, heq, by simp only [] at hk; omega⟩
    | apiStatus c =>
      have hc : 500 ≤ c := by rw [hx] at h0; simpa [Outcome.retryable] using h0
      rw [callAttempts_step_server_more oracle model attempt rem last s c hx hc hrem]
      obtain ⟨s2, heq, hk⟩ := ih (attempt + 1) rem (GroqError.apiStatus c)
        ⟨s.k + 1, s.trace ++ [Event.request model,
          Event.sleep (LLM_RETRY_BASE_DELAY * 2 ^ attempt)]⟩
        (by omega) hshift hsucc1
      exact ⟨s2, heq, by simp only [] at hk; omega⟩

/-- When every allowed attempt fails transiently, the loop exhausts its
budget and raises the last error, having made exactly remaining requests. -/
theorem callAttempts_exhaust (oracle : Oracle) (model : String) :
    ∀ (remaining attempt : Nat) (last : GroqError) (s : CallState),
      0 < remaining →
      (∀ i, i < remaining → (oracle (s.k + i)).retryable) →
      ∃ (e : GroqError) (s2 : CallState),
        callAttempts oracle model attempt remaining last s = (Except.error e, s2) ∧
        s2.k = s.k + remaining := by
  intro remaining
  induction remaining with
  | zero => intro _ _ _ h; omega
  | succ rem ih =>
    intro attempt last s _ hfail
    have h0 : (oracle s.k).retryable := by simpa using hfail 0 (by omega)
    have hshift : ∀ i, i < rem → (oracle (s.k + 1 + i)).retryable := by
      intro i hi
      have := hfail (i + 1) (by omega)
      simpa [Nat.add_assoc, Nat.add_comm 1 i] using this
    rcases Nat.eq_zero_or_pos rem with hrem | hrem
    · subst hrem
      cases hx : oracle s.k with
      | success t0 m0 pt0 ct0 tt0 => rw [hx] at h0; simp [Outcome.retryable] at h0
      | rateLimit =>
        exact ⟨GroqError.rateLimit, _,
          callAttempts_step_rateLimit_last oracle model attempt last s hx, rfl⟩
      | apiStatus c =>
        have hc : 500 ≤ c := by rw [hx] at h0; simpa [Outcome.retryable] using h0
        exact ⟨GroqError.apiStatus c, _,
          callAttempts_step_server_last oracle model attempt last s c hx hc, rfl⟩
    · cases hx : oracle s.k with
      | success t0 m0 pt0 ct0 tt0 => rw [hx] at h0; simp [Outcome.retryable] at h0
      | rateLimit =>
        rw [callAttempts_step_rateLimit_more oracle model attempt rem last s hx hrem]
        obtain ⟨e, s2, heq, hk⟩ := ih (attempt + 1) GroqError.rateLimit
          ⟨s.k + 1, s.trace ++ [Event.request model,
            Event.sleep (LLM_RETRY_BASE_DELAY * 2 ^ attempt)]⟩ hrem hshift
        exact ⟨e, s2, heq, by simp at hk; omega⟩
      | apiStatus c =>
        have hc : 500 ≤ c := by rw [hx] at h0; simpa [Outcome.retryable] using h0
        rw [callAttempts_step_server_more oracle model attempt rem last s c hx hc hrem]
        obtain ⟨e, s2, heq, hk⟩ := ih (attempt + 1) (GroqError.apiStatus c)
          ⟨s.k + 1, s.trace ++ [Event.request model,
            Event.sleep (LLM_RETRY_BASE_DELAY * 2 ^ attempt)]⟩ hrem hshift
        exact ⟨e, s2, heq, by simp at hk; omega⟩

/-- The retry loop only ever appends events that mention its own model. -/
theorem callAttempts_trace_shape (oracle : Oracle) (model : String) :
    ∀ (remaining attempt : Nat) (last : GroqError) (s : CallState),
      ∃ t : List Event,
        (callAttempts oracle model attempt remaining last s).2.trace = s.trace ++ t ∧
        ∀ m2, Event.request m2 ∈ t → m2 = model := by
  intro remaining
  induction remaining with
  | zero =>
    intro attempt last s
    exact ⟨[], by simp [callAttempts], by simp⟩
  | succ rem ih =>
    intro attempt last s
    cases hx : oracle s.k with
    | success t0 m0 pt0 ct0 tt0 =>
      rw [callAttempts_step_success oracle model attempt rem last s t0 m0 pt0 ct0 tt0 hx]
      exact ⟨[Event.request model], rfl, by intro m2 hm; simpa using hm⟩
    | rateLimit =>
      rcases Nat.eq_zero_or_pos rem with hrem | hrem
      · subst hrem
        rw [callAttempts_step_rateLimit_last oracle model attempt last s hx]
        exact ⟨[Event.request model], rfl, by intro m2 hm; simpa using hm⟩
      · rw [callAttempts_step_rateLimit_more oracle model attempt rem last s hx hrem]
        obtain ⟨t, ht, hmem⟩ := ih (attempt + 1) GroqError.rateLimit
          ⟨s.k + 1, s.trace ++ [Event.request model,
            Event.sleep (LLM_RETRY_BASE_DELAY * 2 ^ attempt)]⟩
        refine ⟨[Event.request model,
          Event.sleep (LLM_RETRY_BASE_DELAY * 2 ^ attempt)] ++ t, ?_, ?_⟩
        · simpa [List.append_assoc] using ht
        · intro m2 hm
          rcases List.mem_append.mp hm with hm | hm
          · simpa using hm
          · exact hmem m2 hm
    | apiStatus c =>
      rcases le_or_lt 500 c with hc | hc
      · rcases Nat.eq_zero_or_pos rem with hrem | hrem
        · subst hrem
          rw [callAttempts_step_server_last oracle model attempt last s c hx hc]
          exact ⟨[Event.request model], rfl, by intro m2 hm; simpa using hm⟩
        · rw [callAttempts_step_server_more oracle model attempt rem last s c hx hc hrem]
          obtain ⟨t, ht, hmem⟩ := ih (attempt + 1) (GroqError.apiStatus c)
            ⟨s.k + 1, s.trace ++ [Event.request model,
              Event.sleep (LLM_RETRY_BASE_DELAY * 2 ^ attempt)]⟩
          refine ⟨[Event.request model,
            Event.sleep (LLM_RETRY_BASE_DELAY * 2 ^ attempt)] ++ t, ?_, ?_⟩
          · simpa [List.append_assoc] using ht
          · intro m2 hm
            rcases List.mem_append.mp hm with hm | hm
            · simpa using hm
            · exact hmem m2 hm
      · rw [callAttempts_step_client oracle model attempt rem last s c hx hc]
        exact ⟨[Event.request model], rfl, by intro m2 hm; simpa using hm⟩

/-- _call_with_retry accepts a success preceded by at most LLM_MAX_RETRIES
transient failures. -/
theorem callWithRetry_success (oracle : Oracle) (model : String)
    (t m : String) (pt ct tt : Nat) (j : Nat) (s : CallState)
    (hj : j ≤ LLM_MAX_RETRIES)
    (hfail : ∀ i, i < j → (oracle (s.k + i)).retryable)
    (hsucc : oracle (s.k + j) = Outcome.success t m pt ct tt) :
    ∃ s2 : CallState,
      callWithRetry oracle model s = (Except.ok ⟨t, m, pt, ct, tt⟩, s2) ∧
      s2.k = s.k + j + 1 :=
  callAttempts_success oracle model t m pt ct tt j 0 (LLM_MAX_RETRIES + 1)
    GroqError.rateLimit s (by omega) hfail hsucc

/-- _call_with_retry raises after LLM_MAX_RETRIES + 1 transient failures. -/
theorem callWithRetry_exhaust (oracle : Oracle) (model : String) (s : CallState)
    (hfail : ∀ i, i < LLM_MAX_RETRIES + 1 → (oracle (s.k + i)).retryable) :
    ∃ (e : GroqError) (s2 : CallState),
      callWithRetry oracle model s = (Except.error e, s2) ∧
      s2.k = s.k + (LLM_MAX_RETRIES + 1) :=
  callAttempts_exhaust oracle model (LLM_MAX_RETRIES + 1) 0 GroqError.rateLimit s
    (by omega) hfail

/-- A client error (status < 500, non-rate-limit) is raised from the very
first attempt: one request, no sleep, no retry. -/
theorem callWithRetry_client (oracle : Oracle) (model : String) (s : CallState)
    (c : Nat) (hc : c < 500) (hx : oracle s.k = Outcome.apiStatus c) :
    callWithRetry oracle model s =
      (Except.error (GroqError.apiStatus c), ⟨s.k + 1, s.trace ++ [Event.request model]⟩) :=
  callAttempts_step_client oracle model 0 LLM_MAX_RETRIES GroqError.rateLimit s c hx hc

/-- If _call_with_retry succeeds with non-blank text, the loop body of
complete packages it directly (no second call). -/
theorem attemptModel_ok_of (oracle : Oracle) (model : String) (isFallback : Bool)
    (s s2 : CallState) (t m : String) (pt ct tt : Nat)
    (heq : callWithRetry oracle model s = (Except.ok ⟨t, m, pt, ct, tt⟩, s2))
    (ht : pyStrip t ≠ "") :
    attemptModel oracle model isFallback false s =
      (Except.ok (CompleteResult.response ⟨t, m, pt, ct, tt, isFallback⟩), s2) := by
  simp [attemptModel, heq, ht]

/-- If _call_with_retry raises, the loop body of complete re-raises. -/
theorem attemptModel_error_of (oracle : Oracle) (model : String)
    (isFallback stream : Bool) (s s2 : CallState) (e : GroqError)
    (heq : callWithRetry oracle model s = (Except.error e, s2)) :
    attemptModel oracle model isFallback stream s = (Except.error e, s2) := by
  simp [attemptModel, heq]

/-- One loop iteration of complete only ever appends events that mention its
own model. -/
theorem attemptModel_trace_shape (oracle : Oracle) (model : String)
    (isFallback stream : Bool) (s : CallState) :
    ∃ t : List Event,
      (attemptModel oracle model isFallback stream s).2.trace = s.trace ++ t ∧
      ∀ m2, Event.request m2 ∈ t → m2 = model := by
  obtain ⟨t1, ht1, hm1⟩ :=
    callAttempts_trace_shape oracle model (LLM_MAX_RETRIES + 1) 0 GroqError.rateLimit s
  rcases hcw : callWithRetry oracle model s with ⟨res, s1⟩
  have hs1 : s1.trace = s.trace ++ t1 := by
    have h := ht1
    rw [show callAttempts oracle model 0 (LLM_MAX_RETRIES + 1) GroqError.rateLimit s =
      callWithRetry oracle model s from rfl, hcw] at h
    exact h
  cases res with
  | error e =>
    refine ⟨t1, ?_, hm1⟩
    simp [attemptModel, hcw, hs1]
  | ok r =>
    by_cases hst : stream
    · refine ⟨t1, ?_, hm1⟩
      simp [attemptModel, hcw, hst, hs1]
    · by_cases hempty : pyStrip r.text = ""
      · obtain ⟨t2, ht2, hm2⟩ :=
          callAttempts_trace_shape oracle model (LLM_MAX_RETRIES + 1) 0 GroqError.rateLimit s1
        rcases hcw2 : callWithRetry oracle model s1 with ⟨res2, s2⟩
        have hs2 : s2.trace = s1.trace ++ t2 := by
          have h := ht2
          rw [show callAttempts oracle model 0 (LLM_MAX_RETRIES + 1) GroqError.rateLimit s1 =
            callWithRetry oracle model s1 from rfl, hcw2] at h
          exact h
        refine ⟨t1 ++ t2, ?_, ?_⟩
        · cases res2 <;>
            simp [attemptModel, hcw, hst, hempty, hcw2, hs2, hs1, List.append_assoc]
        · intro m2 hm
          rcases List.mem_append.mp hm with h | h
          · exact hm1 m2 h
          · exact hm2 m2 h
      · refine ⟨t1, ?_, hm1⟩
        simp [attemptModel, hcw, hst, hempty, hs1]

/-- C2: if the primary model fails with rate-limit errors for fewer than
LLM_MAX_RETRIES + 1 consecutive attempts and then succeeds, the result has
fallback_used = false; if the primary exhausts all retries on retryable
errors and the fallback then succeeds, the result has fallback_used = true;
if both models exhaust all retries, LLMUnavailableError is raised; and the
primary model is always attempted before the fallback model, in that fixed
order (every request to the fallback model appears in the trace after all
requests to the primary model). -/
theorem complete_retry_fallback_contract :
    (∀ (oracle : Oracle) (n : Nat) (t m : String) (pt ct tt : Nat),
      n ≤ LLM_MAX_RETRIES →
      (∀ i, i < n → oracle i = Outcome.rateLimit) →
      oracle n = Outcome.success t m pt ct tt →
      pyStrip t ≠ "" →
      (complete oracle false ⟨0, []⟩).1 =
        Except.ok (CompleteResult.response ⟨t, m, pt, ct, tt, false⟩)) ∧
    (∀ (oracle : Oracle) (j : Nat) (t m : String) (pt ct tt : Nat),
      (∀ i, i < LLM_MAX_RETRIES + 1 → (oracle i).retryable) →
      j ≤ LLM_MAX_RETRIES →
      (∀ i, i < j → (oracle (LLM_MAX_RETRIES + 1 + i)).retryable) →
      oracle (LLM_MAX_RETRIES + 1 + j) = Outcome.success t m pt ct tt →
      pyStrip t ≠ "" →
      (complete oracle false ⟨0, []⟩).1 =
        Except.ok (CompleteResult.response ⟨t, m, pt, ct, tt, true⟩)) ∧
    (∀ oracle : Oracle,
      (∀ i, i < 2 * (LLM_MAX_RETRIES + 1) → (oracle i).retryable) →
      ∃ e : GroqError,
        (complete oracle false ⟨0, []⟩).1 =
          Except.error (CompleteError.unavailable (some e))) ∧
    (∀ (oracle : Oracle) (stream : Bool),
      ∃ t1 t2 : List Event,
        (complete oracle stream ⟨0, []⟩).2.trace = t1 ++ t2 ∧
        (∀ m2, Event.request m2 ∈ t1 → m2 = LLM_MODEL) ∧
        (∀ m2, Event.request m2 ∈ t2 → m2 = LLM_FALLBACK_MODEL)) := by
  refine ⟨?_, ?_, ?_, ?_⟩
  · intro oracle n t m pt ct tt hn hfail hsucc ht
    obtain ⟨s2, heq, _⟩ := callWithRetry_success oracle LLM_MODEL t m pt ct tt n ⟨0, []⟩ hn
      (by intro i hi; simp [hfail i hi, Outcome.retryable]) (by simpa using hsucc)
    have h1 := attemptModel_ok_of oracle LLM_MODEL false ⟨0, []⟩ s2 t m pt ct tt heq ht
    simp [complete, h1]
  · intro oracle j t m pt ct tt hfail1 hj hfail2 hsucc ht
    obtain ⟨e1, s1, heq1, hk1⟩ := callWithRetry_exhaust oracle LLM_MODEL ⟨0, []⟩
      (by intro i hi; simpa using hfail1 i hi)
    have hk1z : s1.k = LLM_MAX_RETRIES + 1 := by simpa using hk1
    obtain ⟨s2, heq2, _⟩ := callWithRetry_success oracle LLM_FALLBACK_MODEL t m pt ct tt j s1 hj
      (by intro i hi; rw [hk1z]; exact hfail2 i hi) (by rw [hk1z]; exact hsucc)
    have h1 := attemptModel_error_of oracle LLM_MODEL false false ⟨0, []⟩ s1 e1 heq1
    have h2 := attemptModel_ok_of oracle LLM_FALLBACK_MODEL true s1 s2 t m pt ct tt heq2 ht
    simp [complete, h1, h2]
  · intro oracle hfail
    obtain ⟨e1, s1, heq1, hk1⟩ := callWithRetry_exhaust oracle LLM_MODEL ⟨0, []⟩
      (by intro i hi; simpa using hfail i (by omega))
    have hk1z : s1.k = LLM_MAX_RETRIES + 1 := by simpa using hk1
    obtain ⟨e2, s2, heq2, _⟩ := callWithRetry_exhaust oracle LLM_FALLBACK_MODEL s1
      (by
        intro i hi
        rw [hk1z]
        have hlt : LLM_MAX_RETRIES + 1 + i < 2 * (LLM_MAX_RETRIES + 1) := by
          simp [LLM_MAX_RETRIES] at hi ⊢; omega
        exact hfail (LLM_MAX_RETRIES + 1 + i) hlt)
    have h1 := attemptModel_error_of oracle LLM_MODEL false false ⟨0, []⟩ s1 e1 heq1
    have h2 := attemptModel_error_of oracle LLM_FALLBACK_MODEL true false s1 s2 e2 heq2
    exact ⟨e2, by simp [complete, h1, h2]⟩
  · intro oracle stream
    obtain ⟨t1, ht1, hm1⟩ := attemptModel_trace_shape oracle LLM_MODEL false stream ⟨0, []⟩
    rcases h1 : attemptModel oracle LLM_MODEL false stream ⟨0, []⟩ with ⟨res1, s1⟩
    have hs1 : s1.trace = t1 := by rw [h1] at ht1; simpa using ht1
    cases res1 with
    | ok res =>
      exact ⟨t1, [], by simp [complete, h1, hs1], hm1, by simp⟩
    | error e =>
      obtain ⟨t2, ht2, hm2⟩ := attemptModel_trace_shape oracle LLM_FALLBACK_MODEL true stream s1
      rcases h2 : attemptModel oracle LLM_FALLBACK_MODEL true stream s1 with ⟨res2, s2⟩
      have hs2 : s2.trace = t1 ++ t2 := by rw [h2] at ht2; rw [hs1] at ht2; exact ht2
      cases res2 with
      | ok r => exact ⟨t1, t2, by simp [complete, h1, h2, hs2], hm1, hm2⟩
      | error e2 => exact ⟨t1, t2, by simp [complete, h1, h2, hs2], hm1, hm2⟩

/-- Witness for C2: concrete runs through each clause of the contract. -/
theorem complete_retry_fallback_contract_witness :
    (complete (fun k => if k = 0 then Outcome.rateLimit
        else Outcome.success "ok" "m70" 1 2 3) false ⟨0, []⟩).1 =
      Except.ok (CompleteResult.response ⟨"ok", "m70", 1, 2, 3, false⟩) ∧
    (complete (fun k => if k ≤ 3 then Outcome.rateLimit
        else Outcome.success "fb" "m8" 4 5 6) false ⟨0, []⟩).1 =
      Except.ok (CompleteResult.response ⟨"fb", "m8", 4, 5, 6, true⟩) ∧
    (∃ e : GroqError,
      (complete (fun _ => Outcome.rateLimit) false ⟨0, []⟩).1 =
        Except.error (CompleteError.unavailable (some e))) := by
  refine ⟨?_, ?_, ?_⟩
  · exact complete_retry_fallback_contract.1 _ 1 "ok" "m70" 1 2 3
      (by norm_num [LLM_MAX_RETRIES])
      (by intro i hi; simp [show i = 0 by omega])
      (by rfl) (by decide)
  · exact complete_retry_fallback_contract.2.1 _ 0 "fb" "m8" 4 5 6
      (by
        intro i hi
        have h3 : i ≤ 3 := by simpa [LLM_MAX_RETRIES] using Nat.lt_succ_iff.mp hi
        simp [h3, Outcome.retryable])
      (by norm_num [LLM_MAX_RETRIES])
      (by intro i hi; omega)
      (by norm_num [LLM_MAX_RETRIES]) (by decide)
  · exact complete_retry_fallback_contract.2.2.1 _
      (by intro i hi; simp [Outcome.retryable])

/-- C9: in non-streaming mode, a response accepted with blank text causes
exactly one immediate second request to the same model, with no backoff
sleep in between, and the second result is accepted even if its text is
still blank.  The final state records exactly two requests to the primary
model and nothing else. -/
theorem complete_empty_text_retry_once
    (oracle : Oracle) (t1 m1 : String) (pt1 ct1 tt1 : Nat)
    (t2 m2 : String) (pt2 ct2 tt2 : Nat)
    (h0 : oracle 0 = Outcome.success t1 m1 pt1 ct1 tt1)
    (hempty : pyStrip t1 = "")
    (h1 : oracle 1 = Outcome.success t2 m2 pt2 ct2 tt2) :
    complete oracle false ⟨0, []⟩ =
      (Except.ok (CompleteResult.response ⟨t2, m2, pt2, ct2, tt2, false⟩),
       ⟨2, [Event.request LLM_MODEL, Event.request LLM_MODEL]⟩) := by
  have hc1 := callAttempts_step_success oracle LLM_MODEL 0 LLM_MAX_RETRIES
    GroqError.rateLimit ⟨0, []⟩ t1 m1 pt1 ct1 tt1 (by simpa using h0)
  have hc2 := callAttempts_step_success oracle LLM_MODEL 0 LLM_MAX_RETRIES
    GroqError.rateLimit ⟨1, [Event.request LLM_MODEL]⟩ t2 m2 pt2 ct2 tt2 (by simpa using h1)
  simp only [List.nil_append] at hc1
  simp [complete, attemptModel, callWithRetry, hc1, hc2, hempty]

/-- Witness for C9: blank first response, non-blank second. -/
theorem complete_empty_text_retry_once_witness :
    complete (fun k => if k = 0 then Outcome.success "  " "m70" 1 1 1
        else Outcome.success "hi" "m70" 2 2 2) false ⟨0, []⟩ =
      (Except.ok (CompleteResult.response ⟨"hi", "m70", 2, 2, 2, false⟩),
       ⟨2, [Event.request LLM_MODEL, Event.request LLM_MODEL]⟩) :=
  complete_empty_text_retry_once _ "  " "m70" 1 1 1 "hi" "m70" 2 2 2
    (by rfl) (by decide) (by rfl)

/-- C7 (amended): a client error (status < 500, non-rate-limit) is raised
immediately with no retry and no backoff, ending the attempt
sequence after exactly one request; on the primary model the call falls
through to the fallback model; on the fallback model the call fails to the
caller with LLMUnavailableError whose cause is that client error (the
client error itself is not re-raised). -/
theorem client_error_no_retry_contract :
    (∀ (oracle : Oracle) (model : String) (s : CallState) (c : Nat),
      c < 500 → oracle s.k = Outcome.apiStatus c →
      callWithRetry oracle model s =
        (Except.error (GroqError.apiStatus c),
         ⟨s.k + 1, s.trace ++ [Event.request model]⟩)) ∧
    (∀ (oracle : Oracle) (c : Nat) (t m : String) (pt ct tt : Nat),
      c < 500 → oracle 0 = Outcome.apiStatus c →
      oracle 1 = Outcome.success t m pt ct tt → pyStrip t ≠ "" →
      complete oracle false ⟨0, []⟩ =
        (Except.ok (CompleteResult.response ⟨t, m, pt, ct, tt, true⟩),
         ⟨2, [Event.request LLM_MODEL, Event.request LLM_FALLBACK_MODEL]⟩)) ∧
    (∀ (oracle : Oracle) (c1 c2 : Nat),
      c1 < 500 → c2 < 500 →
      oracle 0 = Outcome.apiStatus c1 → oracle 1 = Outcome.apiStatus c2 →
      complete oracle false ⟨0, []⟩ =
        (Except.error (CompleteError.unavailable (some (GroqError.apiStatus c2))),
         ⟨2, [Event.request LLM_MODEL, Event.request LLM_FALLBACK_MODEL]⟩)) := by
  refine ⟨fun oracle model s c hc hx => callWithRetry_client oracle model s c hc hx, ?_, ?_⟩
  · intro oracle c t m pt ct tt hc h0 h1 ht
    have hp := callWithRetry_client oracle LLM_MODEL ⟨0, []⟩ c hc (by simpa using h0)
    have hf := callAttempts_step_success oracle LLM_FALLBACK_MODEL 0 LLM_MAX_RETRIES
      GroqError.rateLimit ⟨1, [Event.request LLM_MODEL]⟩ t m pt ct tt (by simpa using h1)
    simp only [callWithRetry, List.nil_append] at hp
    simp [complete, attemptModel, callWithRetry, hp, hf, ht]
  · intro oracle c1 c2 hc1 hc2 h0 h1
    have hp := callWithRetry_client oracle LLM_MODEL ⟨0, []⟩ c1 hc1 (by simpa using h0)
    have hf := callWithRetry_client oracle LLM_FALLBACK_MODEL ⟨1, [Event.request LLM_MODEL]⟩
      c2 hc2 (by simpa using h1)
    simp only [List.nil_append] at hp
    simp [complete, attemptModel, callWithRetry] at hp hf ⊢
    simp [hp, hf]

/-- Witness for C7 amended: client error 404 on the primary, success on the
fallback; then client errors on both models. -/
theorem client_error_no_retry_contract_witness :
    complete (fun k => if k = 0 then Outcome.apiStatus 404
        else Outcome.success "hi" "m8" 1 1 1) false ⟨0, []⟩ =
      (Except.ok (CompleteResult.response ⟨"hi", "m8", 1, 1, 1, true⟩),
       ⟨2, [Event.request LLM_MODEL, Event.request LLM_FALLBACK_MODEL]⟩) ∧
    complete (fun k => if k = 0 then Outcome.apiStatus 404
        else Outcome.apiStatus 422) false ⟨0, []⟩ =
      (Except.error (CompleteError.unavailable (some (GroqError.apiStatus 422))),
       ⟨2, [Event.request LLM_MODEL, Event.request LLM_FALLBACK_MODEL]⟩) := by
  constructor
  · exact client_error_no_retry_contract.2.1 _ 404 "hi" "m8" 1 1 1
      (by norm_num) (by rfl) (by rfl) (by decide)
  · exact client_error_no_retry_contract.2.2 _ 404 422
      (by norm_num) (by norm_num) (by rfl) (by rfl)

/-- C7 counterexample: the claim as stated says a client error on the
fallback model propagates to the caller; on a run where both models fail
with client errors the caller instead receives LLMUnavailableError chained
from the fallback client error, not the client error itself. -/
theorem client_error_fallback_wrapped_counterexample :
    (complete (fun _ => Outcome.apiStatus 404) false ⟨0, []⟩).1 ≠
      Except.error (CompleteError.groq (GroqError.apiStatus 404)) ∧
    (complete (fun _ => Outcome.apiStatus 404) false ⟨0, []⟩).1 =
      Except.error (CompleteError.unavailable (some (GroqError.apiStatus 404))) := by
  have h : (complete (fun _ => Outcome.apiStatus 404) false ⟨0, []⟩).1 =
      Except.error (CompleteError.unavailable (some (GroqError.apiStatus 404))) := rfl
  exact ⟨by rw [h]; simp, h⟩

end LLMClient

namespace Rag

/-- From utils/config.py: TOP_K = 5. -/
def TOP_K : Nat := 5

/-- From utils/config.py: RERANK_CANDIDATES = 20. -/
def RERANK_CANDIDATES : Nat := 20

/-- From utils/config.py: MULTI_QUERY_VARIANTS = 3. -/
def MULTI_QUERY_VARIANTS : Nat := 3

/-- Per-chunk metadata as stored by the ingestion collaborator and consumed
by core/rag.py: source_name and chunk_index (an integer ≥ 0). -/
structure Meta where
  source_name : String
  chunk_index : Nat
deriving DecidableEq

/-- core/models.py Citation. -/
structure Citation where
  source_name : String
  chunk_text : String
  chunk_index : Nat
  relevance_score : ℚ
deriving DecidableEq

/-- core/models.py RAGResponse. -/
structure RAGResponse where
  answer : String
  citations : List Citation
  technique : String
  chunks_considered : Nat
deriving DecidableEq

/-- The inner lists of a ChromaDB query result dict, after the [0] indexing
done by core/rag.py: documents, metadatas and distances of the single
query.  Distances are modelled as rationals. -/
structure StoreResult where
  documents : List String
  metadatas : List Meta
  distances : List ℚ
deriving DecidableEq

/-- Python round(x, 4): round half to even at the fourth decimal place,
modelled exactly over the rationals. -/
def round4 (x : ℚ) : ℚ :=
  let y := x * 10000
  let f : ℤ := Int.floor y
  let frac := y - f
  let r : ℤ :=
    if frac < 1 / 2 then f
    else if 1 / 2 < frac then f + 1
    else if f % 2 = 0 then f else f + 1
  (r : ℚ) / 10000

/-- _build_citations (core/rag.py lines 42-53): zip the three lists (Python
zip truncates to the shortest), compute relevance = max(0, 1 - distance)
rounded to 4 decimal places, and keep input order.  The dist-is-None guard
of the source is outside this model because distances are total here. -/
def build_citations : List String → List Meta → List ℚ → List Citation
  | doc :: docs, meta :: metas, dist :: dists =>
    { source_name := meta.source_name
      chunk_text := doc
      chunk_index := meta.chunk_index
      relevance_score := round4 (max 0 (1 - dist)) } :: build_citations docs metas dists
  | _, _, _ => []

/-- Decimal digit characters of n, most significant first, via a
fuel-parameterised structural recursion (fuel n + 1 always suffices since
n / 10 < n for n ≥ 1).  Models Python str() of a non-negative int. -/
def natDigitsAux : Nat → Nat → List Char → List Char
  | 0, _, acc => acc
  | fuel + 1, n, acc =>
    let acc2 := Nat.digitChar (n % 10) :: acc
    if n / 10 = 0 then acc2 else natDigitsAux fuel (n / 10) acc2

/-- Decimal representation of a natural number as a character list. -/
def natDigits (n : Nat) : List Char := natDigitsAux (n + 1) n []

/-- The chunk identity key of _multi_query_retrieve (core/rag.py line 154):
the Python f-string source_name + underscore + str(chunk_index). -/
def chunkId (meta : Meta) : String :=
  meta.source_name ++ "_" ++ String.mk (natDigits meta.chunk_index)

/-- A JSON scalar as it can appear inside a parsed score array: a number
(Python ints, floats and booleans all behave numerically in comparisons
and division) or a string.  Other JSON values (null, objects, nested
arrays) are outside the model; like strings they defeat the numeric
operations of the source. -/
inductive ScoreVal where
  | num (q : ℚ)
  | str (s : String)
deriving DecidableEq

/-- An integer score seen as a numeric score value. -/
def intScore (z : Int) : ScoreVal := ScoreVal.num (z : ℚ)

/-- Outcome of json.loads on the rerank reply followed by the isinstance
list check, abstracted as an oracle: parse failure
(JSONDecodeError/ValueError), a parsed value that is not a Python list, a
list all of whose entries are integers (the well-typed case the rest of
the pipeline expects), or any other parsed list with its entries modelled
as numbers or strings. -/
inductive ParsedScores where
  | fail
  | nonList
  | ints (xs : List Int)
  | vals (xs : List ScoreVal)
deriving DecidableEq

/-- Outcome of json.loads on the variant-generation reply, abstracted the
same way: parse failure, a non-list value, or a list of strings. -/
inductive ParsedVariants where
  | fail
  | nonList
  | strs (xs : List String)
deriving DecidableEq

/-- The effective score array of _reranking_retrieve (core/rag.py lines
105-114) restricted to replies outside ParsedScores.vals: on parse failure
or a non-list reply use [3] * len(docs); then truncate to len(docs) and pad
with 3 until the length matches.  rerankScoresFull extends the same
pad/truncate rule to arbitrary parsed lists and is proved to agree with
this integer version on its domain. -/
def rerankScores (n : Nat) (p : ParsedScores) : List Int :=
  let scores0 : List Int :=
    match p with
    | ParsedScores.ints xs => xs
    | _ => List.replicate n 3
  let truncated := scores0.take n
  truncated ++ List.replicate (n - truncated.length) 3

/-- Indices 0..keys.length-1 sorted by key descending; ties keep the
original order.  This is the meaning of the stable Python
sorted(..., reverse=True): equal keys never swap, which is exactly a sort
by the linear order (key descending, index ascending). -/
def stableRankDesc {α : Type} [LinearOrder α] (keys : List α) (d0 : α) : List Nat :=
  List.insertionSort
    (fun i j => keys.getD j d0 < keys.getD i d0 ∨
      (keys.getD i d0 = keys.getD j d0 ∧ i ≤ j))
    (List.range keys.length)

/-- The selection step of _reranking_retrieve (core/rag.py lines 116-122):
rank candidate indices by score descending (stable), keep the first top_k,
and synthesize a pseudo-distance of 1 - score / 5 for each kept item. -/
def rerankSelect (docs : List String) (metas : List Meta) (scores : List Int)
    (top_k : Nat) : StoreResult :=
  let ranked := (stableRankDesc scores 0).take top_k
  { documents := ranked.map (fun i => docs.getD i "")
    metadatas := ranked.map (fun i => metas.getD i ⟨"", 0⟩)
    distances := ranked.map (fun i => 1 - ((scores.getD i 0 : ℚ) / 5)) }

/-- Python comparison a < b between score values: numbers compare with
numbers and strings with strings; a cross-kind comparison raises
TypeError, modelled as the error case. -/
def pyLt : ScoreVal → ScoreVal → Except Unit Bool
  | ScoreVal.num a, ScoreVal.num b => Except.ok (decide (a < b))
  | ScoreVal.str a, ScoreVal.str b => Except.ok (decide (a < b))
  | _, _ => Except.error ()

/-- Whether index i precedes index j in the stable descending sort of the
keys scores[i], using only the Python < on the key values (so a
cross-kind key comparison raises): key_j < key_i puts i first, key_i <
key_j puts j first, and incomparable-equal keys keep the original index
order. -/
def rankLtM (keys : List ScoreVal) (i j : Nat) : Except Unit Bool :=
  match pyLt (keys.getD j (ScoreVal.num 0)) (keys.getD i (ScoreVal.num 0)) with
  | Except.error e => Except.error e
  | Except.ok true => Except.ok true
  | Except.ok false =>
    match pyLt (keys.getD i (ScoreVal.num 0)) (keys.getD j (ScoreVal.num 0)) with
    | Except.error e => Except.error e
    | Except.ok true => Except.ok false
    | Except.ok false => Except.ok (decide (i ≤ j))

/-- Insertion into a sorted list under a fallible comparison: the first
failing comparison aborts, as an exception would. -/
def orderedInsertM {α : Type} (le : α → α → Except Unit Bool) (a : α) :
    List α → Except Unit (List α)
  | [] => Except.ok [a]
  | b :: l =>
    match le a b with
    | Except.error e => Except.error e
    | Except.ok true => Except.ok (a :: b :: l)
    | Except.ok false =>
      match orderedInsertM le a l with
      | Except.error e => Except.error e
      | Except.ok rest => Except.ok (b :: rest)

/-- Stable sort under a fallible comparison.  Any comparison sort must
order every cross-kind pair of keys and therefore raises exactly when two
keys of different kinds are present, so this insertion sort agrees with
the Timsort behind Python sorted both on whether TypeError is raised and,
by stability, on the result when it is not. -/
def insertionSortM {α : Type} (le : α → α → Except Unit Bool) :
    List α → Except Unit (List α)
  | [] => Except.ok []
  | a :: l =>
    match insertionSortM le l with
    | Except.error e => Except.error e
    | Except.ok rest => orderedInsertM le a rest

/-- The pseudo-distance expression 1.0 - (scores[i] / 5.0) of rag.py line
121: dividing a non-number raises TypeError. -/
def distanceOf : ScoreVal → Except Unit ℚ
  | ScoreVal.num q => Except.ok (1 - q / 5)
  | ScoreVal.str _ => Except.error ()

/-- The distances list comprehension over the kept indices; the first
non-number score raises. -/
def distancesM (scores : List ScoreVal) : List Nat → Except Unit (List ℚ)
  | [] => Except.ok []
  | i :: rest =>
    match distanceOf (scores.getD i (ScoreVal.num 0)) with
    | Except.error e => Except.error e
    | Except.ok d =>
      match distancesM scores rest with
      | Except.error e => Except.error e
      | Except.ok ds => Except.ok (d :: ds)

/-- The effective score array of _reranking_retrieve for every parse
outcome, including parsed lists with non-integer entries: same
pad/truncate-with-3 rule over score values. -/
def rerankScoresFull (n : Nat) (p : ParsedScores) : List ScoreVal :=
  let scores0 : List ScoreVal :=
    match p with
    | ParsedScores.ints xs => xs.map intScore
    | ParsedScores.vals xs => xs
    | _ => List.replicate n (ScoreVal.num 3)
  let truncated := scores0.take n
  truncated ++ List.replicate (n - truncated.length) (ScoreVal.num 3)

/-- Full-fidelity selection step of _reranking_retrieve (rag.py lines
116-122): the stable descending sort of candidate indices and the
pseudo-distance computation can each raise TypeError when a score value
is not a number. -/
def rerankSelectFull (docs : List String) (metas : List Meta) (scores : List ScoreVal)
    (top_k : Nat) : Except Unit StoreResult :=
  match insertionSortM (rankLtM scores) (List.range scores.length) with
  | Except.error e => Except.error e
  | Except.ok rankedAll =>
    let ranked := rankedAll.take top_k
    match distancesM scores ranked with
    | Except.error e => Except.error e
    | Except.ok dists =>
      Except.ok ⟨ranked.map (fun i => docs.getD i ""),
        ranked.map (fun i => metas.getD i ⟨"", 0⟩), dists⟩

/-- Exceptions a strategy can raise: LLMUnavailableError propagating from
its strategy-internal complete call, or TypeError from the score sort /
distance computation. -/
inductive StrategyError where
  | unavailable
  | typeErr
deriving DecidableEq

/-- Python dict update doc_scores[key] = doc_scores.get(key, 0) + inc over
an insertion-ordered association list: update the existing entry in place,
or append a new one at the end. -/
def rrfInsert : List (String × ℚ) → String → ℚ → List (String × ℚ)
  | [], key, inc => [(key, inc)]
  | (k, v) :: rest, key, inc =>
    if k = key then (k, v + inc) :: rest
    else (k, v) :: rrfInsert rest key inc

/-- Python: if chunk_id not in doc_data, doc_data[chunk_id] = (doc, meta) --
keep the first-seen payload for a key. -/
def dataInsert (data : List (String × String × Meta)) (key doc : String) (meta : Meta) :
    List (String × String × Meta) :=
  if (data.lookup key).isSome then data else data ++ [(key, doc, meta)]

/-- Accumulated fusion state of _multi_query_retrieve: the insertion-ordered
doc_scores dict and the first-seen doc_data dict. -/
structure FuseState where
  doc_scores : List (String × ℚ)
  doc_data : List (String × String × Meta)
deriving DecidableEq

/-- The inner loop of _multi_query_retrieve (core/rag.py lines 153-157) over
the zipped (doc, meta) results of one query: for the passage at 0-based rank r,
add 1 / (r + 60) to its fused score and record its first-seen payload. -/
def fuseList (st : FuseState) (results : List (String × Meta)) : FuseState :=
  results.enum.foldl
    (fun st2 p =>
      ⟨rrfInsert st2.doc_scores (chunkId p.2.2) (1 / ((p.1 : ℚ) + 60)),
       dataInsert st2.doc_data (chunkId p.2.2) p.2.1 p.2.2⟩)
    st

/-- Fusion over all query result lists, in order. -/
def fuseAll (lists : List (List (String × Meta))) : FuseState :=
  lists.foldl fuseList ⟨[], []⟩

/-- The selection step of _multi_query_retrieve (core/rag.py lines 159-165):
sort the fused ids by score descending (stable over dict insertion order),
keep the first top_k, and synthesize pseudo-distance 1 - fused_score. -/
def multiQuerySelect (lists : List (List (String × Meta))) (top_k : Nat) : StoreResult :=
  let st := fuseAll lists
  let ranked := (stableRankDesc (st.doc_scores.map (fun p => p.2)) 0).take top_k
  let ids := ranked.map (fun i => (st.doc_scores.getD i ("", 0)).1)
  { documents := ids.map (fun cid => ((st.doc_data.lookup cid).getD ("", ⟨"", 0⟩)).1)
    metadatas := ids.map (fun cid => ((st.doc_data.lookup cid).getD ("", ⟨"", 0⟩)).2)
    distances := ranked.map (fun i => 1 - (st.doc_scores.getD i ("", 0)).2) }

/-- External collaborators of core/rag.py as call-indexed oracles: the k-th
llm_client.complete call (some text on success, none when it raises
LLMUnavailableError), the k-th vector_store.query_collection result, and
the json.loads outcome for rerank-score and variant replies. -/
structure RagEnv where
  llm : Nat → Option String
  store : Nat → StoreResult
  scoreParse : String → ParsedScores
  variantParse : String → ParsedVariants

/-- Counters of LLM-layer calls and vector-store queries made so far while
serving one request. -/
structure RagState where
  llmK : Nat
  storeK : Nat
deriving DecidableEq

/-- One call to llm_client.complete. -/
def callLLM (env : RagEnv) (s : RagState) : Option String × RagState :=
  (env.llm s.llmK, ⟨s.llmK + 1, s.storeK⟩)

/-- One call to vector_store.query_collection. -/
def callStore (env : RagEnv) (s : RagState) : StoreResult × RagState :=
  (env.store s.storeK, ⟨s.llmK, s.storeK + 1⟩)

/-- _naive_retrieve: a single vector-store query. -/
def naive_retrieve (env : RagEnv) (s : RagState) : Except Unit StoreResult × RagState :=
  let p := callStore env s
  (Except.ok p.1, p.2)

/-- _hyde_retrieve: one LLM call for the hypothetical answer (before any
retrieval), then one vector-store query.  An LLM failure propagates. -/
def hyde_retrieve (env : RagEnv) (s : RagState) : Except Unit StoreResult × RagState :=
  match callLLM env s with
  | (none, s1) => (Except.error (), s1)
  | (some _, s1) =>
    let p := callStore env s1
    (Except.ok p.1, p.2)

/-- _reranking_retrieve: one vector-store query for RERANK_CANDIDATES
passages; if it is empty, return it unchanged without calling the LLM;
otherwise one LLM scoring call, then pad/truncate the parsed scores and
select the top TOP_K.  This version is faithful for replies outside
ParsedScores.vals (integer score lists and parse failures);
reranking_retrieveFull below extends it to every parsed list and is
proved to agree with it on this domain. -/
def reranking_retrieve (env : RagEnv) (s : RagState) : Except Unit StoreResult × RagState :=
  let p := callStore env s
  if p.1.documents = [] then (Except.ok p.1, p.2)
  else
    match callLLM env p.2 with
    | (none, s2) => (Except.error (), s2)
    | (some text, s2) =>
      (Except.ok (rerankSelect p.1.documents p.1.metadatas
        (rerankScores p.1.documents.length (env.scoreParse text)) TOP_K), s2)

/-- Full-fidelity _reranking_retrieve: like reranking_retrieve, but the
selection step can raise TypeError when the parsed score list contains a
non-number entry (rag.py lines 116-122). -/
def reranking_retrieveFull (env : RagEnv) (s : RagState) :
    Except StrategyError StoreResult × RagState :=
  let p := callStore env s
  if p.1.documents = [] then (Except.ok p.1, p.2)
  else
    match callLLM env p.2 with
    | (none, s2) => (Except.error StrategyError.unavailable, s2)
    | (some text, s2) =>
      match rerankSelectFull p.1.documents p.1.metadatas
        (rerankScoresFull p.1.documents.length (env.scoreParse text)) TOP_K with
      | Except.error _ => (Except.error StrategyError.typeErr, s2)
      | Except.ok r => (Except.ok r, s2)

/-- _multi_query_retrieve: one LLM call for the variants (before any
retrieval; empty list on parse failure or non-list reply), then one
vector-store query for the original question and one per kept variant
(variants[:MULTI_QUERY_VARIANTS]), fused with RRF.  The sequential store
calls are modelled by direct successive oracle indexing. -/
def multi_query_retrieve (env : RagEnv) (s : RagState) : Except Unit StoreResult × RagState :=
  match callLLM env s with
  | (none, s1) => (Except.error (), s1)
  | (some text, s1) =>
    let variants : List String :=
      match env.variantParse text with
      | ParsedVariants.strs xs => xs
      | _ => []
    let numQueries := 1 + (variants.take MULTI_QUERY_VARIANTS).length
    let lists := (List.range numQueries).map (fun i =>
      (env.store (s1.storeK + i)).documents.zip (env.store (s1.storeK + i)).metadatas)
    (Except.ok (multiQuerySelect lists TOP_K), ⟨s1.llmK, s1.storeK + numQueries⟩)

/-- The technique resolution of query (core/rag.py lines 178-180): unknown
names fall back to naive. -/
def resolveTechnique (technique : String) : String :=
  if technique = "naive" ∨ technique = "hyde" ∨ technique = "reranking" ∨
      technique = "multi_query"
  then technique else "naive"

/-- Dispatch through _TECHNIQUE_MAP for a resolved technique name. -/
def retrieve (technique : String) (env : RagEnv) (s : RagState) :
    Except Unit StoreResult × RagState :=
  if technique = "hyde" then hyde_retrieve env s
  else if technique = "reranking" then reranking_retrieve env s
  else if technique = "multi_query" then multi_query_retrieve env s
  else naive_retrieve env s

/-- The canned answer of the empty-store branch of query. -/
def NO_DOCS_MSG : String := "No documents have been added to this notebook yet."

/-- query (core/rag.py lines 176-211): resolve the technique, run the
strategy, short-circuit on an empty passage list, otherwise build citations
and make the final answer-generation LLM call.  Prompt assembly
(_build_sources_text) has no observable effect here because the oracles are
call-indexed, so it is not modelled. -/
def query (env : RagEnv) (technique : String) (s : RagState) :
    Except Unit RAGResponse × RagState :=
  let t := resolveTechnique technique
  match retrieve t env s with
  | (Except.error e, s1) => (Except.error e, s1)
  | (Except.ok results, s1) =>
    if results.documents = [] then
      (Except.ok ⟨NO_DOCS_MSG, [], t, 0⟩, s1)
    else
      match callLLM env s1 with
      | (none, s2) => (Except.error (), s2)
      | (some text, s2) =>
        (Except.ok ⟨text,
          build_citations results.documents results.metadatas results.distances,
          t, results.documents.length⟩, s2)

/-- The relevance formula exactly as the specification words it:
clamp(1 - distance, 0, 1), rounded to 4 decimal places. -/
def claimClamp (d : ℚ) : ℚ := round4 (min 1 (max 0 (1 - d)))

/-- Rounding preserves non-negativity. -/
theorem round4_nonneg (x : ℚ) (h : 0 ≤ x) : 0 ≤ round4 x := by
  have hf : (0 : ℤ) ≤ Int.floor (x * 10000) := by positivity
  simp only [round4]
  split
  · positivity
  · split
    · positivity
    · split <;> positivity

/-- For a non-negative distance the source formula max(0, 1 - d) agrees
with the clamp of the specification. -/
theorem round4_max_eq_claimClamp (d : ℚ) (h : 0 ≤ d) :
    round4 (max 0 (1 - d)) = claimClamp d := by
  have hm : max 0 (1 - d) = min 1 (max 0 (1 - d)) := by
    rcases le_or_lt (1 - d) 0 with h1 | h1
    · rw [max_eq_left h1, min_eq_right]; norm_num
    · rw [max_eq_right h1.le, min_eq_right]; linarith
  rw [claimClamp, ← hm]

/-- C3: the relevance score of each citation equals clamp(1 - distance, 0, 1)
rounded to 4 decimal places, computed element-wise in the same order as the
input passage list with no deduplication or reordering; distances
[0.3, 0.6, 0.9] yield scores [0.7, 0.4, 0.1]; a distance greater than 1
yields score 0; and no score is ever negative. -/
theorem build_citations_relevance_contract :
    (∀ (docs : List String) (metas : List Meta) (dists : List ℚ),
      docs.length = metas.length → docs.length = dists.length →
      (∀ d ∈ dists, 0 ≤ d) →
      (build_citations docs metas dists).map Citation.relevance_score =
        dists.map claimClamp ∧
      (build_citations docs metas dists).map Citation.chunk_text = docs ∧
      (build_citations docs metas dists).map Citation.source_name =
        metas.map Meta.source_name ∧
      (build_citations docs metas dists).map Citation.chunk_index =
        metas.map Meta.chunk_index) ∧
    ((build_citations ["a", "b", "c"] [⟨"s", 0⟩, ⟨"s", 1⟩, ⟨"s", 2⟩]
        [3/10, 6/10, 9/10]).map Citation.relevance_score = [7/10, 4/10, 1/10]) ∧
    (∀ (doc : String) (meta : Meta) (d : ℚ), 1 < d →
      build_citations [doc] [meta] [d] =
        [⟨meta.source_name, doc, meta.chunk_index, 0⟩]) ∧
    (∀ (docs : List String) (metas : List Meta) (dists : List ℚ),
      ∀ c ∈ build_citations docs metas dists, 0 ≤ c.relevance_score) := by
  refine ⟨?_, ?_, ?_, ?_⟩
  · intro docs
    induction docs with
    | nil =>
      intro metas dists h1 h2 _
      have hm : metas = [] := List.length_eq_zero.mp h1.symm
      have hd : dists = [] := List.length_eq_zero.mp h2.symm
      subst hm; subst hd
      simp [build_citations]
    | cons doc docs ih =>
      intro metas dists h1 h2 hpos
      cases metas with
      | nil => simp at h1
      | cons meta metas =>
        cases dists with
        | nil => simp at h2
        | cons dist dists =>
          have hd0 : 0 ≤ dist := hpos dist (by simp)
          have hrec := ih metas dists (by simpa using h1) (by simpa using h2)
            (fun d hd => hpos d (by simp [hd]))
          simp only [build_citations, List.map_cons]
          exact ⟨by rw [hrec.1, round4_max_eq_claimClamp dist hd0],
            by rw [hrec.2.1], by rw [hrec.2.2.1], by rw [hrec.2.2.2]⟩
  · norm_num [build_citations, round4]
  · intro doc meta d hd
    have h0 : max 0 (1 - d) = 0 := max_eq_left (by linarith)
    simp [build_citations, h0]
    norm_num [round4]
  · intro docs
    induction docs with
    | nil => intro metas dists c hc; simp [build_citations] at hc
    | cons doc docs ih =>
      intro metas dists c hc
      cases metas with
      | nil => simp [build_citations] at hc
      | cons meta metas =>
        cases dists with
        | nil => simp [build_citations] at hc
        | cons dist dists =>
          simp only [build_citations, List.mem_cons] at hc
          rcases hc with hc | hc
          · subst hc
            exact round4_nonneg _ (le_max_left 0 (1 - dist))
          · exact ih metas dists c hc

/-- Witness for C3: a one-element passage list with distance 1/2, and a
distance greater than 1. -/
theorem build_citations_relevance_contract_witness :
    (build_citations ["x"] [⟨"s", 2⟩] [1/2]).map Citation.relevance_score =
      [(1 : ℚ)/2].map claimClamp ∧
    build_citations ["y"] [⟨"t", 0⟩] [3/2] = [⟨"t", "y", 0, 0⟩] :=
  ⟨(build_citations_relevance_contract.1 ["x"] [⟨"s", 2⟩] [1/2] rfl rfl
      (by norm_num)).1,
   build_citations_relevance_contract.2.2.1 "y" ⟨"t", 0⟩ (3/2) (by norm_num)⟩

/-- The ranking permutes the candidate indices: nothing is lost or
duplicated before the take. -/
theorem stableRankDesc_perm {α : Type} [LinearOrder α] (keys : List α) (d0 : α) :
    (stableRankDesc keys d0).Perm (List.range keys.length) :=
  List.perm_insertionSort _ _

/-- The ranking is sorted by key descending, with ties in ascending index
order, i.e. ties keep the original order: the meaning of a stable
descending sort. -/
theorem stableRankDesc_sorted {α : Type} [LinearOrder α] (keys : List α) (d0 : α) :
    List.Pairwise
      (fun i j => keys.getD j d0 < keys.getD i d0 ∨
        (keys.getD i d0 = keys.getD j d0 ∧ i ≤ j))
      (stableRankDesc keys d0) := by
  haveI : IsTotal Nat (fun i j => keys.getD j d0 < keys.getD i d0 ∨
      (keys.getD i d0 = keys.getD j d0 ∧ i ≤ j)) := ⟨by
    intro a b
    rcases lt_trichotomy (keys.getD a d0) (keys.getD b d0) with h | h | h
    · exact Or.inr (Or.inl h)
    · rcases le_total a b with hab | hab
      · exact Or.inl (Or.inr ⟨h, hab⟩)
      · exact Or.inr (Or.inr ⟨h.symm, hab⟩)
    · exact Or.inl (Or.inl h)⟩
  haveI : IsTrans Nat (fun i j => keys.getD j d0 < keys.getD i d0 ∨
      (keys.getD i d0 = keys.getD j d0 ∧ i ≤ j)) := ⟨by
    intro a b c hab hbc
    rcases hab with hab | ⟨hab1, hab2⟩ <;> rcases hbc with hbc | ⟨hbc1, hbc2⟩
    · exact Or.inl (hbc.trans hab)
    · exact Or.inl (hbc1 ▸ hab)
    · exact Or.inl (hab1 ▸ hbc)
    · exact Or.inr ⟨hab1.trans hbc1, hab2.trans hbc2⟩⟩
  exact List.sorted_insertionSort _ _

/-- C4: the reranking strategy ranks candidate indices by their score in
descending order with ties keeping the original retrieval order (stable
sort), keeps the top top_k, and assigns pseudo-distance 1 - score / 5;
with scores [1, 5, 3] the ranking is [1, 2, 0], so the top result and top
citation come from the candidate scored 5. -/
theorem reranking_sort_contract :
    (∀ (scores : List Int) (top_k : Nat),
      ((stableRankDesc scores 0).take top_k).length = min top_k scores.length ∧
      (stableRankDesc scores 0).Perm (List.range scores.length) ∧
      List.Pairwise (fun i j => scores.getD j 0 < scores.getD i 0 ∨
          (scores.getD i 0 = scores.getD j 0 ∧ i ≤ j))
        ((stableRankDesc scores 0).take top_k)) ∧
    (∀ (docs : List String) (metas : List Meta) (scores : List Int) (top_k : Nat),
      (rerankSelect docs metas scores top_k).documents =
        ((stableRankDesc scores 0).take top_k).map (fun i => docs.getD i "") ∧
      (rerankSelect docs metas scores top_k).distances =
        ((stableRankDesc scores 0).take top_k).map
          (fun i => 1 - ((scores.getD i 0 : ℚ) / 5))) ∧
    (stableRankDesc ([1, 5, 3] : List Int) 0 = [1, 2, 0]) ∧
    ((match (reranking_retrieve
        ⟨fun _ => some "[1, 5, 3]",
         fun _ => ⟨["d0", "d1", "d2"], [⟨"a", 0⟩, ⟨"b", 0⟩, ⟨"c", 0⟩], [1/10, 2/10, 3/10]⟩,
         fun _ => ParsedScores.ints [1, 5, 3],
         fun _ => ParsedVariants.fail⟩ ⟨0, 0⟩).1 with
      | Except.ok r => r.documents
      | Except.error _ => []) = ["d1", "d2", "d0"]) ∧
    ((match (reranking_retrieve
        ⟨fun _ => some "[1, 5, 3]",
         fun _ => ⟨["d0", "d1", "d2"], [⟨"a", 0⟩, ⟨"b", 0⟩, ⟨"c", 0⟩], [1/10, 2/10, 3/10]⟩,
         fun _ => ParsedScores.ints [1, 5, 3],
         fun _ => ParsedVariants.fail⟩ ⟨0, 0⟩).1 with
      | Except.ok r => (build_citations r.documents r.metadatas r.distances).map
          Citation.source_name
      | Except.error _ => []) = ["b", "c", "a"]) := by
  refine ⟨?_, ?_, ?_, ?_, ?_⟩
  · intro scores top_k
    refine ⟨?_, stableRankDesc_perm scores 0, ?_⟩
    · rw [List.length_take, (stableRankDesc_perm scores 0).length_eq, List.length_range]
    · exact List.Pairwise.sublist (List.take_sublist top_k _) (stableRankDesc_sorted scores 0)
  · intro docs metas scores top_k
    exact ⟨rfl, rfl⟩
  · decide
  · rfl
  · rfl

/-- The effective score array always has exactly one score per candidate. -/
theorem rerankScores_length (n : Nat) (p : ParsedScores) :
    (rerankScores n p).length = n := by
  cases p <;>
    simp [rerankScores, List.length_take, List.length_replicate, List.length_append]

/-- Prepending num to rationals commutes with positional lookup. -/
theorem scoreVal_getD_map (qs : List ℚ) (k : Nat) :
    (qs.map ScoreVal.num).getD k (ScoreVal.num 0) = ScoreVal.num (qs.getD k 0) := by
  induction qs generalizing k with
  | nil => simp
  | cons q t ih =>
    cases k with
    | zero => simp
    | succ k2 => simpa using ih k2

/-- On all-number keys the fallible index comparison never raises and
computes exactly the stable descending order relation. -/
theorem rankLtM_num (qs : List ℚ) (i j : Nat) :
    rankLtM (qs.map ScoreVal.num) i j =
      Except.ok (decide (qs.getD j 0 < qs.getD i 0 ∨
        (qs.getD i 0 = qs.getD j 0 ∧ i ≤ j))) := by
  simp only [rankLtM, scoreVal_getD_map, pyLt]
  by_cases h1 : qs.getD j 0 < qs.getD i 0
  · rw [decide_eq_true h1, decide_eq_true (Or.inl h1)]
  · by_cases h2 : qs.getD i 0 < qs.getD j 0
    · have hOr : ¬(qs.getD j 0 < qs.getD i 0 ∨
          (qs.getD i 0 = qs.getD j 0 ∧ i ≤ j)) := by
        rintro (hlt | ⟨he, _⟩)
        · exact h1 hlt
        · exact absurd he (ne_of_lt h2)
      rw [decide_eq_false h1, decide_eq_true h2, decide_eq_false hOr]
    · have heq : qs.getD i 0 = qs.getD j 0 :=
        le_antisymm (not_lt.mp h1) (not_lt.mp h2)
      rw [decide_eq_false h1, decide_eq_false h2]
      by_cases hij : i ≤ j
      · rw [decide_eq_true hij, decide_eq_true (Or.inr ⟨heq, hij⟩)]
      · have hOr2 : ¬(qs.getD j 0 < qs.getD i 0 ∨
            (qs.getD i 0 = qs.getD j 0 ∧ i ≤ j)) := by
          rintro (hlt | ⟨_, hle⟩)
          · exact h1 hlt
          · exact hij hle
        rw [decide_eq_false hij, decide_eq_false hOr2]

/-- When every comparison succeeds and decides a fixed relation, the
fallible insertion coincides with the pure one. -/
theorem orderedInsertM_pure {α : Type} (r : α → α → Prop) [DecidableRel r]
    (le : α → α → Except Unit Bool)
    (h : ∀ a b, le a b = Except.ok (decide (r a b))) (a : α) :
    ∀ l : List α, orderedInsertM le a l = Except.ok (List.orderedInsert r a l) := by
  intro l
  induction l with
  | nil => rfl
  | cons b t ih =>
    simp only [orderedInsertM, h a b, List.orderedInsert]
    by_cases hr : r a b
    · simp [hr]
    · simp [hr, ih]

/-- When every comparison succeeds and decides a fixed relation, the
fallible sort coincides with the pure stable sort. -/
theorem insertionSortM_pure {α : Type} (r : α → α → Prop) [DecidableRel r]
    (le : α → α → Except Unit Bool)
    (h : ∀ a b, le a b = Except.ok (decide (r a b))) :
    ∀ l : List α, insertionSortM le l = Except.ok (List.insertionSort r l) := by
  intro l
  induction l with
  | nil => rfl
  | cons a t ih =>
    simp only [insertionSortM, ih, List.insertionSort]
    exact orderedInsertM_pure r le h a _

/-- Sorting indices of all-number keys never raises and produces exactly
the stable descending ranking of the integer model. -/
theorem insertionSortM_num (qs : List ℚ) :
    insertionSortM (rankLtM (qs.map ScoreVal.num))
      (List.range (qs.map ScoreVal.num).length) = Except.ok (stableRankDesc qs 0) := by
  rw [List.length_map]
  exact insertionSortM_pure
    (fun i j => qs.getD j 0 < qs.getD i 0 ∨ (qs.getD i 0 = qs.getD j 0 ∧ i ≤ j))
    (rankLtM (qs.map ScoreVal.num)) (rankLtM_num qs) (List.range qs.length)

/-- Distances over all-number scores never raise. -/
theorem distancesM_num (qs : List ℚ) :
    ∀ l : List Nat, distancesM (qs.map ScoreVal.num) l =
      Except.ok (l.map (fun i => 1 - qs.getD i 0 / 5)) := by
  intro l
  induction l with
  | nil => rfl
  | cons i rest ih => simp [distancesM, scoreVal_getD_map, distanceOf, ih]

/-- The full selection step never raises on all-number score arrays and
computes the stable descending selection with 1 - score / 5 distances. -/
theorem rerankSelectFull_num (docs : List String) (metas : List Meta) (qs : List ℚ)
    (top_k : Nat) :
    rerankSelectFull docs metas (qs.map ScoreVal.num) top_k =
      Except.ok ⟨((stableRankDesc qs 0).take top_k).map (fun i => docs.getD i ""),
        ((stableRankDesc qs 0).take top_k).map (fun i => metas.getD i ⟨"", 0⟩),
        ((stableRankDesc qs 0).take top_k).map (fun i => 1 - qs.getD i 0 / 5)⟩ := by
  simp only [rerankSelectFull, insertionSortM_num, distancesM_num]

/-- Positional lookup in an intScore-mapped list. -/
theorem scoreVal_getD_intmap (xs : List Int) (k : Nat) :
    (xs.map intScore).getD k (ScoreVal.num 0) = ScoreVal.num ((xs.getD k 0 : ℚ)) := by
  induction xs generalizing k with
  | nil => simp [intScore]
  | cons z t ih =>
    cases k with
    | zero => simp [intScore]
    | succ k2 => simpa using ih k2

/-- On intScore-mapped integer lists the monadic rank comparison never
errors and computes the stable descending-by-integer-key relation. -/
theorem rankLtM_int (xs : List Int) (i j : Nat) :
    rankLtM (xs.map intScore) i j =
      Except.ok (decide (xs.getD j 0 < xs.getD i 0 ∨
        (xs.getD i 0 = xs.getD j 0 ∧ i ≤ j))) := by
  simp only [rankLtM, scoreVal_getD_intmap, pyLt]
  by_cases h1 : xs.getD j 0 < xs.getD i 0
  · have h1q : ((xs.getD j 0 : ℚ)) < ((xs.getD i 0 : ℚ)) := by exact_mod_cast h1
    rw [decide_eq_true h1q, decide_eq_true (Or.inl h1)]
  · have h1q : ¬ ((xs.getD j 0 : ℚ)) < ((xs.getD i 0 : ℚ)) := by exact_mod_cast h1
    by_cases h2 : xs.getD i 0 < xs.getD j 0
    · have h2q : ((xs.getD i 0 : ℚ)) < ((xs.getD j 0 : ℚ)) := by exact_mod_cast h2
      have hOr : ¬(xs.getD j 0 < xs.getD i 0 ∨ (xs.getD i 0 = xs.getD j 0 ∧ i ≤ j)) := by
        rintro (hlt | ⟨he, _⟩)
        · exact h1 hlt
        · exact absurd he (ne_of_lt h2)
      rw [decide_eq_false h1q, decide_eq_true h2q, decide_eq_false hOr]
    · have h2q : ¬ ((xs.getD i 0 : ℚ)) < ((xs.getD j 0 : ℚ)) := by exact_mod_cast h2
      have heq : xs.getD i 0 = xs.getD j 0 :=
        le_antisymm (not_lt.mp h1) (not_lt.mp h2)
      rw [decide_eq_false h1q, decide_eq_false h2q]
      by_cases hij : i ≤ j
      · rw [decide_eq_true hij, decide_eq_true (Or.inr ⟨heq, hij⟩)]
      · have hOr2 : ¬(xs.getD j 0 < xs.getD i 0 ∨
            (xs.getD i 0 = xs.getD j 0 ∧ i ≤ j)) := by
          rintro (hlt | ⟨_, hle⟩)
          · exact h1 hlt
          · exact hij hle
        rw [decide_eq_false hij, decide_eq_false hOr2]

/-- Sorting candidate indices by intScore-mapped keys never errors and
equals the integer-model stable descending ranking. -/
theorem insertionSortM_int (xs : List Int) :
    insertionSortM (rankLtM (xs.map intScore)) (List.range (xs.map intScore).length) =
      Except.ok (stableRankDesc xs 0) := by
  rw [List.length_map]
  exact insertionSortM_pure
    (fun i j => xs.getD j 0 < xs.getD i 0 ∨ (xs.getD i 0 = xs.getD j 0 ∧ i ≤ j))
    (rankLtM (xs.map intScore)) (rankLtM_int xs) (List.range xs.length)

/-- Pseudo-distances over intScore-mapped integer scores never error. -/
theorem distancesM_int (xs : List Int) :
    ∀ l : List Nat, distancesM (xs.map intScore) l =
      Except.ok (l.map (fun i => 1 - ((xs.getD i 0 : ℚ) / 5))) := by
  intro l
  induction l with
  | nil => rfl
  | cons i rest ih =>
    simp only [distancesM, scoreVal_getD_intmap, distanceOf, ih, List.map_cons]

/-- On integer score arrays the full-fidelity selection raises nothing and
agrees exactly with the integer model rerankSelect. -/
theorem rerankSelectFull_int (docs : List String) (metas : List Meta)
    (xs : List Int) (top_k : Nat) :
    rerankSelectFull docs metas (xs.map intScore) top_k =
      Except.ok (rerankSelect docs metas xs top_k) := by
  simp only [rerankSelectFull, insertionSortM_int, distancesM_int, rerankSelect]

/-- For every parse outcome outside ParsedScores.vals the full effective
score array is the integer one, cast pointwise. -/
theorem rerankScoresFull_agree (n : Nat) (p : ParsedScores)
    (h : ∀ xs, p ≠ ParsedScores.vals xs) :
    rerankScoresFull n p = (rerankScores n p).map intScore := by
  have h3 : intScore 3 = ScoreVal.num 3 := by
    simp [intScore]
  cases p with
  | fail =>
    simp only [rerankScoresFull, rerankScores, List.take_replicate, Nat.min_self,
      List.length_replicate, Nat.sub_self, List.replicate_zero, List.append_nil,
      List.map_replicate, h3]
  | nonList =>
    simp only [rerankScoresFull, rerankScores, List.take_replicate, Nat.min_self,
      List.length_replicate, Nat.sub_self, List.replicate_zero, List.append_nil,
      List.map_replicate, h3]
  | ints xs =>
    simp only [rerankScoresFull, rerankScores, ← List.map_take, List.length_map,
      List.map_append, List.map_replicate, h3]
  | vals xs => exact absurd rfl (h xs)

/-- A list all of whose entries are numbers is a mapped rational list. -/
theorem allNum_exists_map (xs : List ScoreVal)
    (h : ∀ v ∈ xs, ∃ q : ℚ, v = ScoreVal.num q) :
    ∃ qs : List ℚ, xs = qs.map ScoreVal.num := by
  induction xs with
  | nil => exact ⟨[], rfl⟩
  | cons v t ih =>
    obtain ⟨q, hq⟩ := h v (by simp)
    obtain ⟨qs, hqs⟩ := ih (fun v2 h2 => h v2 (by simp [h2]))
    exact ⟨q :: qs, by simp [hq, hqs]⟩

/-- C6 (amended): a reply that fails to parse, parses to a non-list, or
parses to a list of integers of the wrong length raises no exception: the
score array is padded/truncated with the default score 3 to the candidate
count and the strategy returns exactly min(top_k, candidate count)
results (exactly top_k whenever at least top_k candidates are retrieved),
with the full-fidelity pipeline agreeing with the integer model on that
whole domain; score arrays of numbers (including non-integers) also never
raise; but a parsed list containing a non-number entry is padded the same
way and then raises TypeError in the score sort or the pseudo-distance
computation, so the no-exception guarantee holds only for numeric score
arrays. -/
theorem rerank_malformed_reply_contract :
    (∀ (n : Nat) (p : ParsedScores), (rerankScores n p).length = n) ∧
    (∀ n : Nat, rerankScores n ParsedScores.fail = List.replicate n 3 ∧
      rerankScores n ParsedScores.nonList = List.replicate n 3) ∧
    (∀ (n : Nat) (xs : List Int), rerankScores n (ParsedScores.ints xs) =
      xs.take n ++ List.replicate (n - (xs.take n).length) 3) ∧
    (∀ (n : Nat) (p : ParsedScores), (∀ xs, p ≠ ParsedScores.vals xs) →
      rerankScoresFull n p = (rerankScores n p).map intScore) ∧
    (∀ (docs : List String) (metas : List Meta) (p : ParsedScores) (top_k : Nat),
      (∀ xs, p ≠ ParsedScores.vals xs) →
      rerankSelectFull docs metas (rerankScoresFull docs.length p) top_k =
        Except.ok (rerankSelect docs metas (rerankScores docs.length p) top_k)) ∧
    (∀ (docs : List String) (metas : List Meta) (xs : List ScoreVal) (top_k : Nat),
      (∀ v ∈ xs, ∃ q : ℚ, v = ScoreVal.num q) →
      ∃ r : StoreResult,
        rerankSelectFull docs metas
          (rerankScoresFull docs.length (ParsedScores.vals xs)) top_k =
          Except.ok r ∧
        r.documents.length = min top_k docs.length) ∧
    (∀ (env : RagEnv) (s : RagState) (text : String),
      env.llm s.llmK = some text →
      (env.store s.storeK).documents ≠ [] →
      (∀ xs, env.scoreParse text ≠ ParsedScores.vals xs) →
      ∃ r : StoreResult,
        (reranking_retrieveFull env s).1 = Except.ok r ∧
        (reranking_retrieve env s).1 = Except.ok r ∧
        r.documents.length = min TOP_K (env.store s.storeK).documents.length) := by
  refine ⟨rerankScores_length, ?_, ?_, rerankScoresFull_agree, ?_, ?_, ?_⟩
  · intro n
    constructor <;> simp [rerankScores, List.take_replicate]
  · intro n xs
    rfl
  · intro docs metas p top_k h
    rw [rerankScoresFull_agree docs.length p h, rerankSelectFull_int]
  · intro docs metas xs top_k h
    obtain ⟨qs0, rfl⟩ := allNum_exists_map xs h
    have heff : rerankScoresFull docs.length (ParsedScores.vals (qs0.map ScoreVal.num)) =
        (qs0.take docs.length ++
          List.replicate (docs.length - (qs0.take docs.length).length) 3).map
          ScoreVal.num := by
      simp [rerankScoresFull, List.map_take, List.map_append, List.map_replicate,
        List.length_map]
    rw [heff, rerankSelectFull_num]
    refine ⟨_, rfl, ?_⟩
    simp only [List.length_map, List.length_take]
    rw [(stableRankDesc_perm _ 0).length_eq, List.length_range, List.length_append,
      List.length_take, List.length_replicate]
    omega
  · intro env s text hllm hne hnv
    refine ⟨rerankSelect (env.store s.storeK).documents (env.store s.storeK).metadatas
      (rerankScores (env.store s.storeK).documents.length (env.scoreParse text)) TOP_K,
      ?_, ?_, ?_⟩
    · simp only [reranking_retrieveFull, callStore, callLLM, hllm]
      rw [if_neg hne]
      rw [rerankScoresFull_agree _ _ hnv, rerankSelectFull_int]
    · simp [reranking_retrieve, callStore, callLLM, hne, hllm]
    · simp only [rerankSelect, List.length_map, List.length_take]
      rw [(stableRankDesc_perm _ 0).length_eq, List.length_range, rerankScores_length]

/-- Witness for C6: three candidates, a reply that fails to parse, run
through both the full-fidelity and the integer strategies. -/
theorem rerank_malformed_reply_contract_witness :
    ∃ r : StoreResult,
      (reranking_retrieveFull
        ⟨fun _ => some "oops",
         fun _ => ⟨["a", "b", "c"], [⟨"s", 0⟩, ⟨"s", 1⟩, ⟨"s", 2⟩], [1/10, 2/10, 3/10]⟩,
         fun _ => ParsedScores.fail,
         fun _ => ParsedVariants.fail⟩ ⟨0, 0⟩).1 = Except.ok r ∧
      (reranking_retrieve
        ⟨fun _ => some "oops",
         fun _ => ⟨["a", "b", "c"], [⟨"s", 0⟩, ⟨"s", 1⟩, ⟨"s", 2⟩], [1/10, 2/10, 3/10]⟩,
         fun _ => ParsedScores.fail,
         fun _ => ParsedVariants.fail⟩ ⟨0, 0⟩).1 = Except.ok r ∧
      r.documents.length = min TOP_K 3 :=
  rerank_malformed_reply_contract.2.2.2.2.2.2 _ ⟨0, 0⟩ "oops" rfl (by simp)
    (fun xs h => ParsedScores.noConfusion h)

/-- C6 counterexample: with a single candidate and an unparseable reply
the strategy returns one result, not TOP_K = 5, so the claim that it
still returns exactly top_k results fails when fewer than top_k
candidates are retrieved; and with two candidates and the reply
parsing to the JSON array ["a"] — wrong length, entries not integers —
the padded score array mixes a string with the int 3 and the strategy
raises TypeError in the sort instead of raising no exception. -/
theorem rerank_reply_exception_counterexample :
    (match (reranking_retrieveFull
        ⟨fun _ => some "not json",
         fun _ => ⟨["solo"], [⟨"s", 0⟩], [1/10]⟩,
         fun _ => ParsedScores.fail,
         fun _ => ParsedVariants.fail⟩ ⟨0, 0⟩).1 with
      | Except.ok r => r.documents.length
      | Except.error _ => 0) = 1 ∧ (1 : Nat) ≠ TOP_K ∧
    (reranking_retrieveFull
        ⟨fun _ => some "[\"a\"]",
         fun _ => ⟨["c0", "c1"], [⟨"s", 0⟩, ⟨"s", 1⟩], [1/10, 2/10]⟩,
         fun _ => ParsedScores.vals [ScoreVal.str "a"],
         fun _ => ParsedVariants.fail⟩ ⟨0, 0⟩).1 =
      Except.error StrategyError.typeErr := by
  exact ⟨rfl, by decide, rfl⟩

/-- The digit expansion does not depend on the fuel as long as the fuel
exceeds the number. -/
theorem natDigitsAux_fuel : ∀ (n f1 f2 : Nat) (acc : List Char), n < f1 → n < f2 →
    natDigitsAux f1 n acc = natDigitsAux f2 n acc := by
  intro n
  induction n using Nat.strong_induction_on with
  | _ n ih =>
    intro f1 f2 acc h1 h2
    obtain ⟨g1, rfl⟩ : ∃ g, f1 = g + 1 := ⟨f1 - 1, by omega⟩
    obtain ⟨g2, rfl⟩ : ∃ g, f2 = g + 1 := ⟨f2 - 1, by omega⟩
    simp only [natDigitsAux]
    by_cases h : n / 10 = 0
    · simp [h]
    · simp only [h, if_false]
      have hd : n / 10 < n := Nat.div_lt_self (by omega) (by omega)
      exact ih (n / 10) hd g1 g2 _ (by omega) (by omega)

/-- The accumulator of natDigitsAux is a plain suffix. -/
theorem natDigitsAux_append : ∀ (fuel n : Nat) (acc : List Char),
    natDigitsAux fuel n acc = natDigitsAux fuel n [] ++ acc := by
  intro fuel
  induction fuel with
  | zero => intro n acc; simp [natDigitsAux]
  | succ g ih =>
    intro n acc
    simp only [natDigitsAux]
    by_cases h : n / 10 = 0
    · simp [h]
    · simp only [h, if_false]
      rw [ih (n / 10) (Nat.digitChar (n % 10) :: acc),
        ih (n / 10) [Nat.digitChar (n % 10)]]
      simp

/-- Recursive decomposition of the decimal expansion. -/
theorem natDigits_decomp (n : Nat) (h : n / 10 ≠ 0) :
    natDigits n = natDigits (n / 10) ++ [Nat.digitChar (n % 10)] := by
  have hd : n / 10 < n := Nat.div_lt_self (by omega) (by omega)
  show natDigitsAux (n + 1) n [] = _
  simp only [natDigitsAux, h, if_false]
  rw [natDigitsAux_append n (n / 10) [Nat.digitChar (n % 10)]]
  rw [natDigitsAux_fuel (n / 10) n (n / 10 + 1) [] (by omega) (Nat.lt_succ_self _)]
  rfl

/-- Numeric value of a digit character. -/
def digitVal (c : Char) : Nat := c.toNat - 48

/-- Decimal value of a digit string, most significant digit first. -/
def digitsVal (l : List Char) : Nat := l.foldl (fun a c => 10 * a + digitVal c) 0

/-- Peeling the least significant digit off the value. -/
theorem digitsVal_append_singleton (l : List Char) (c : Char) :
    digitsVal (l ++ [c]) = 10 * digitsVal l + digitVal c := by
  simp [digitsVal, List.foldl_append]

/-- The decimal expansion is inverted by its value, hence injective. -/
theorem digitsVal_natDigits : ∀ n : Nat, digitsVal (natDigits n) = n := by
  intro n
  induction n using Nat.strong_induction_on with
  | _ n ih =>
    by_cases h : n / 10 = 0
    · have hn : n < 10 := (Nat.div_eq_zero_iff (by omega)).mp h
      have hsingle : natDigits n = [Nat.digitChar (n % 10)] := by
        show natDigitsAux (n + 1) n [] = _
        simp [natDigitsAux, h]
      rw [hsingle]
      have hdc : ∀ d, d < 10 → digitVal (Nat.digitChar d) = d := by decide
      have hm : n % 10 = n := Nat.mod_eq_of_lt hn
      simp [digitsVal, hm]
      exact hdc n hn
    · rw [natDigits_decomp n h, digitsVal_append_singleton]
      have hd : n / 10 < n := Nat.div_lt_self (by omega) (by omega)
      rw [ih (n / 10) hd]
      have hdc : ∀ d, d < 10 → digitVal (Nat.digitChar d) = d := by decide
      rw [hdc _ (Nat.mod_lt _ (by omega))]
      omega

/-- Every character of the expansion is a digit character. -/
theorem natDigitsAux_mem : ∀ (fuel n : Nat) (acc : List Char) (c : Char),
    c ∈ natDigitsAux fuel n acc → c ∈ acc ∨ ∃ d, d < 10 ∧ c = Nat.digitChar d := by
  intro fuel
  induction fuel with
  | zero => intro n acc c hc; exact Or.inl (by simpa [natDigitsAux] using hc)
  | succ g ih =>
    intro n acc c hc
    simp only [natDigitsAux] at hc
    by_cases h : n / 10 = 0
    · simp only [h, if_true] at hc
      rcases List.mem_cons.mp (by simpa using hc) with hc2 | hc2
      · exact Or.inr ⟨n % 10, Nat.mod_lt _ (by omega), hc2⟩
      · exact Or.inl hc2
    · simp only [h, if_false] at hc
      rcases ih (n / 10) _ c hc with hc2 | hc2
      · rcases List.mem_cons.mp hc2 with hc3 | hc3
        · exact Or.inr ⟨n % 10, Nat.mod_lt _ (by omega), hc3⟩
        · exact Or.inl hc3
      · exact Or.inr hc2

/-- No underscore ever occurs among the digits of a number. -/
theorem natDigits_no_underscore (n : Nat) : ∀ c ∈ natDigits n, c ≠ '_' := by
  intro c hc
  rcases natDigitsAux_mem (n + 1) n [] c hc with h | ⟨d, hd, rfl⟩
  · simp at h
  · have hall : ∀ d2, d2 < 10 → Nat.digitChar d2 ≠ '_' := by decide
    exact hall d hd

/-- Splitting at the first separator of lists that contain none. -/
theorem underscore_split_rev : ∀ (a1 a2 r1 r2 : List Char),
    ('_' ∉ a1) → ('_' ∉ a2) →
    a1 ++ '_' :: r1 = a2 ++ '_' :: r2 → a1 = a2 ∧ r1 = r2 := by
  intro a1
  induction a1 with
  | nil =>
    intro a2 r1 r2 _ h2 heq
    cases a2 with
    | nil => simpa using heq
    | cons b bs =>
      simp only [List.nil_append, List.cons_append, List.cons.injEq] at heq
      exact absurd (heq.1 ▸ List.mem_cons_self b bs) h2
  | cons a as ih =>
    intro a2 r1 r2 h1 h2 heq
    cases a2 with
    | nil =>
      simp only [List.nil_append, List.cons_append, List.cons.injEq] at heq
      exact absurd (heq.1.symm ▸ List.mem_cons_self a as) h1
    | cons b bs =>
      simp only [List.cons_append, List.cons.injEq] at heq
      obtain ⟨rfl, heq2⟩ := heq
      have hres := ih bs r1 r2 (fun h => h1 (List.mem_cons_of_mem _ h))
        (fun h => h2 (List.mem_cons_of_mem _ h)) heq2
      exact ⟨by rw [hres.1], hres.2⟩

/-- Splitting at the last separator when the tails contain none. -/
theorem underscore_split (l1 l2 d1 d2 : List Char)
    (h1 : '_' ∉ d1) (h2 : '_' ∉ d2)
    (heq : l1 ++ '_' :: d1 = l2 ++ '_' :: d2) : l1 = l2 ∧ d1 = d2 := by
  have hrev := congrArg List.reverse heq
  simp only [List.reverse_append, List.reverse_cons] at hrev
  have hrev2 : d1.reverse ++ '_' :: l1.reverse = d2.reverse ++ '_' :: l2.reverse := by
    simpa [List.append_assoc] using hrev
  have hres := underscore_split_rev d1.reverse d2.reverse l1.reverse l2.reverse
    (by simpa using h1) (by simpa using h2) hrev2
  constructor
  · have := congrArg List.reverse hres.2; simpa using this
  · have := congrArg List.reverse hres.1; simpa using this

/-- C8: passages are identified by the pair (source_name, chunk_index):
the fused-score key source_name + underscore + str(chunk_index) is equal
for two passages if and only if both components are equal, so two
retrieved passages contribute to the same fused-score entry exactly when
their source_name and chunk_index agree; the doc_scores dict keeps two
entries exactly when the keys differ. -/
theorem chunkId_identity_iff :
    (∀ m1 m2 : Meta, chunkId m1 = chunkId m2 ↔
      (m1.source_name = m2.source_name ∧ m1.chunk_index = m2.chunk_index)) ∧
    (∀ (d1 d2 : String) (m1 m2 : Meta),
      (fuseAll [[(d1, m1)], [(d2, m2)]]).doc_scores.length =
        if chunkId m1 = chunkId m2 then 1 else 2) := by
  constructor
  · intro m1 m2
    constructor
    · intro h
      have hdata : m1.source_name.data ++ '_' :: natDigits m1.chunk_index =
          m2.source_name.data ++ '_' :: natDigits m2.chunk_index := by
        have hd := congrArg String.data h
        simpa [chunkId, String.data_append] using hd
      obtain ⟨hs, hd⟩ := underscore_split _ _ _ _
        (fun hin => natDigits_no_underscore m1.chunk_index _ hin rfl)
        (fun hin => natDigits_no_underscore m2.chunk_index _ hin rfl) hdata
      refine ⟨String.ext hs, ?_⟩
      have hinj : natDigits m1.chunk_index = natDigits m2.chunk_index := hd
      have := congrArg digitsVal hinj
      rwa [digitsVal_natDigits, digitsVal_natDigits] at this
    · rintro ⟨h1, h2⟩
      simp [chunkId, h1, h2]
  · intro d1 d2 m1 m2
    by_cases h : chunkId m1 = chunkId m2 <;>
      simp [fuseAll, fuseList, rrfInsert, dataInsert, List.enum, List.enumFrom, h]

/-- Specification-side per-list RRF contribution of a key: 1 / (r + 60) for
each appearance at 0-based rank r, ranks counted from the given start. -/
def rrfListScore (key : String) : Nat → List (String × Meta) → ℚ
  | _, [] => 0
  | r, dm :: rest =>
    (if chunkId dm.2 = key then 1 / ((r : ℚ) + 60) else 0) + rrfListScore key (r + 1) rest

/-- Specification-side fused score of a key over all query result lists. -/
def rrfSpecScore (lists : List (List (String × Meta))) (key : String) : ℚ :=
  (lists.map (rrfListScore key 0)).sum

/-- Total score recorded for a key in an association list (the dict value
when the keys are distinct). -/
def scoreOf (acc : List (String × ℚ)) (key : String) : ℚ :=
  ((acc.filter (fun p => p.1 = key)).map (fun p => p.2)).sum

theorem scoreOf_nil (key : String) : scoreOf [] key = 0 := rfl

theorem scoreOf_cons (k : String) (v : ℚ) (rest : List (String × ℚ)) (key : String) :
    scoreOf ((k, v) :: rest) key = (if k = key then v else 0) + scoreOf rest key := by
  by_cases h : k = key <;> simp [scoreOf, List.filter_cons, h]

/-- The dict update adds the increment to exactly the touched key. -/
theorem scoreOf_rrfInsert (acc : List (String × ℚ)) (k key : String) (inc : ℚ) :
    scoreOf (rrfInsert acc k inc) key =
      scoreOf acc key + (if k = key then inc else 0) := by
  induction acc with
  | nil =>
    by_cases h : k = key <;> simp [rrfInsert, scoreOf_cons, scoreOf_nil, h]
  | cons p rest ih =>
    rcases p with ⟨k0, v0⟩
    by_cases h0 : k0 = k
    · subst h0
      by_cases h : k0 = key <;>
        simp [rrfInsert, scoreOf_cons, h] <;> ring
    · rw [show rrfInsert ((k0, v0) :: rest) k inc = (k0, v0) :: rrfInsert rest k inc by
        simp [rrfInsert, h0]]
      rw [scoreOf_cons, scoreOf_cons, ih]
      ring

/-- Folding one ranked result list adds exactly the per-list RRF
contribution to every key. -/
theorem fuse_foldl_score (key : String) :
    ∀ (results : List (String × Meta)) (r0 : Nat) (st : FuseState),
      scoreOf ((List.enumFrom r0 results).foldl
        (fun st2 p => FuseState.mk
          (rrfInsert st2.doc_scores (chunkId p.2.2) (1 / ((p.1 : ℚ) + 60)))
          (dataInsert st2.doc_data (chunkId p.2.2) p.2.1 p.2.2)) st).doc_scores key =
      scoreOf st.doc_scores key + rrfListScore key r0 results := by
  intro results
  induction results with
  | nil => intro r0 st; simp [rrfListScore]
  | cons dm rest ih =>
    intro r0 st
    simp only [List.enumFrom, List.foldl_cons]
    rw [ih (r0 + 1)]
    simp only [scoreOf_rrfInsert, rrfListScore]
    by_cases h : chunkId dm.2 = key <;> simp [h] <;> ring

/-- fuseList in terms of the specification contribution. -/
theorem fuseList_score (st : FuseState) (results : List (String × Meta)) (key : String) :
    scoreOf (fuseList st results).doc_scores key =
      scoreOf st.doc_scores key + rrfListScore key 0 results :=
  fuse_foldl_score key results 0 st

/-- C5 core accumulation fact: after fusing all lists, the total recorded
score of a key is the reciprocal-rank-fusion sum of the specification. -/
theorem fuseAll_score_aux (key : String) :
    ∀ (lists : List (List (String × Meta))) (st : FuseState),
      scoreOf (lists.foldl fuseList st).doc_scores key =
        scoreOf st.doc_scores key + rrfSpecScore lists key := by
  intro lists
  induction lists with
  | nil => intro st; simp [rrfSpecScore]
  | cons l rest ih =>
    intro st
    simp only [List.foldl_cons]
    rw [ih, fuseList_score]
    simp [rrfSpecScore]
    ring

theorem fuseAll_score (lists : List (List (String × Meta))) (key : String) :
    scoreOf (fuseAll lists).doc_scores key = rrfSpecScore lists key := by
  rw [fuseAll, fuseAll_score_aux]
  simp [scoreOf_nil]

/-- The dict update either keeps the key set or appends the new key. -/
theorem rrfInsert_keys (acc : List (String × ℚ)) (k : String) (inc : ℚ) :
    (rrfInsert acc k inc).map Prod.fst =
      if k ∈ acc.map Prod.fst then acc.map Prod.fst else acc.map Prod.fst ++ [k] := by
  induction acc with
  | nil => simp [rrfInsert]
  | cons p rest ih =>
    rcases p with ⟨k0, v0⟩
    by_cases h0 : k0 = k
    · subst h0; simp [rrfInsert]
    · simp only [rrfInsert, if_neg h0, List.map_cons, ih]
      by_cases hmem : k ∈ rest.map Prod.fst <;>
        simp [hmem, Ne.symm h0, h0]

/-- Dict updates keep the keys distinct. -/
theorem rrfInsert_nodup (acc : List (String × ℚ)) (k : String) (inc : ℚ)
    (h : (acc.map Prod.fst).Nodup) : ((rrfInsert acc k inc).map Prod.fst).Nodup := by
  rw [rrfInsert_keys]
  by_cases hmem : k ∈ acc.map Prod.fst
  · simpa [hmem] using h
  · simp only [hmem, if_false]
    exact h.append (List.nodup_singleton k) (List.disjoint_singleton.mpr hmem)

/-- Folding a result list keeps the score keys distinct. -/
theorem fuse_foldl_nodup :
    ∀ (results : List (String × Meta)) (r0 : Nat) (st : FuseState),
      (st.doc_scores.map Prod.fst).Nodup →
      (((List.enumFrom r0 results).foldl
        (fun st2 p => FuseState.mk
          (rrfInsert st2.doc_scores (chunkId p.2.2) (1 / ((p.1 : ℚ) + 60)))
          (dataInsert st2.doc_data (chunkId p.2.2) p.2.1 p.2.2)) st).doc_scores.map
            Prod.fst).Nodup := by
  intro results
  induction results with
  | nil => intro r0 st h; simpa using h
  | cons dm rest ih =>
    intro r0 st h
    simp only [List.enumFrom, List.foldl_cons]
    exact ih (r0 + 1) _ (rrfInsert_nodup _ _ _ h)

theorem fuseAll_nodup_aux :
    ∀ (lists : List (List (String × Meta))) (st : FuseState),
      (st.doc_scores.map Prod.fst).Nodup →
      ((lists.foldl fuseList st).doc_scores.map Prod.fst).Nodup := by
  intro lists
  induction lists with
  | nil => intro st h; simpa using h
  | cons l rest ih =>
    intro st h
    simp only [List.foldl_cons]
    exact ih _ (fuse_foldl_nodup l 0 st h)

/-- After fusing all lists the score keys are distinct, so each key has a
single entry whose value is its total score. -/
theorem fuseAll_nodup (lists : List (List (String × Meta))) :
    ((fuseAll lists).doc_scores.map Prod.fst).Nodup :=
  fuseAll_nodup_aux lists ⟨[], []⟩ (by simp)

/-- A key outside the dict has total score zero. -/
theorem scoreOf_of_not_mem (acc : List (String × ℚ)) (key : String)
    (h : key ∉ acc.map Prod.fst) : scoreOf acc key = 0 := by
  induction acc with
  | nil => rfl
  | cons p rest ih =>
    rcases p with ⟨k0, v0⟩
    simp only [List.map_cons, List.mem_cons] at h
    push_neg at h
    rw [scoreOf_cons, ih h.2, if_neg (Ne.symm h.1)]
    ring

/-- With distinct keys, the stored value of an entry is the total score of
its key: the dict value is exactly the fused score. -/
theorem entry_eq_scoreOf (acc : List (String × ℚ)) (k : String) (v : ℚ)
    (hnd : (acc.map Prod.fst).Nodup) (hmem : (k, v) ∈ acc) : v = scoreOf acc k := by
  induction acc with
  | nil => simp at hmem
  | cons p rest ih =>
    rcases p with ⟨k0, v0⟩
    simp only [List.map_cons, List.nodup_cons] at hnd
    rcases List.mem_cons.mp hmem with hm | hm
    · obtain ⟨hk, hv⟩ := Prod.mk.inj hm
      subst hk; subst hv
      rw [scoreOf_cons, if_pos rfl, scoreOf_of_not_mem rest k hnd.1]
      ring
    · have hkne : k0 ≠ k := by
        intro hcontra
        exact hnd.1 (hcontra ▸ (List.mem_map_of_mem Prod.fst hm))
      rw [scoreOf_cons, if_neg hkne, ih hnd.2 hm]
      ring

theorem lookup_append {β : Type} (l1 l2 : List (String × β)) (key : String) :
    (l1 ++ l2).lookup key = (l1.lookup key).or (l2.lookup key) := by
  induction l1 with
  | nil => simp [List.lookup]
  | cons p rest ih =>
    rcases p with ⟨k0, v0⟩
    by_cases h : key = k0
    · simp [List.lookup, h]
    · have hb : (key == k0) = false := beq_eq_false_iff_ne.mpr h
      simp [List.lookup, hb, ih]

/-- lookup across the conditional first-seen insert. -/
theorem lookup_dataInsert (data : List (String × String × Meta)) (k doc : String)
    (meta : Meta) (key : String) :
    (dataInsert data k doc meta).lookup key =
      (data.lookup key).or (if key = k then some (doc, meta) else none) := by
  by_cases hp : (data.lookup k).isSome
  · simp only [dataInsert, hp, if_true]
    by_cases hk : key = k
    · subst hk
      obtain ⟨v, hv⟩ := Option.isSome_iff_exists.mp hp
      simp [hv]
    · simp [hk]
  · simp only [dataInsert]
    rw [if_neg hp, lookup_append]
    congr 1
    by_cases hk : key = k
    · simp [List.lookup, hk]
    · have hb : (key == k) = false := beq_eq_false_iff_ne.mpr hk
      simp [List.lookup, hb, hk]

/-- The first (doc, meta) whose key matches, in traversal order. -/
def firstSeenIn (l : List (String × Meta)) (key : String) : Option (String × Meta) :=
  l.find? (fun dm => chunkId dm.2 = key)

/-- Folding one result list only adds the first-seen payloads of that
list, after anything already recorded. -/
theorem fuse_foldl_data (key : String) :
    ∀ (results : List (String × Meta)) (r0 : Nat) (st : FuseState),
      ((List.enumFrom r0 results).foldl
        (fun st2 p => FuseState.mk
          (rrfInsert st2.doc_scores (chunkId p.2.2) (1 / ((p.1 : ℚ) + 60)))
          (dataInsert st2.doc_data (chunkId p.2.2) p.2.1 p.2.2)) st).doc_data.lookup key =
      (st.doc_data.lookup key).or (firstSeenIn results key) := by
  intro results
  induction results with
  | nil => intro r0 st; simp [firstSeenIn, List.find?]
  | cons dm rest ih =>
    intro r0 st
    simp only [List.enumFrom, List.foldl_cons]
    rw [ih (r0 + 1), lookup_dataInsert, Option.or_assoc]
    congr 1
    by_cases h : chunkId dm.2 = key
    · simp [firstSeenIn, List.find?, h]
    · simp [firstSeenIn, List.find?, h, Ne.symm h]

/-- fuseList in terms of the first-seen payloads. -/
theorem fuseList_data (st : FuseState) (results : List (String × Meta)) (key : String) :
    (fuseList st results).doc_data.lookup key =
      (st.doc_data.lookup key).or (firstSeenIn results key) :=
  fuse_foldl_data key results 0 st

theorem fuseAll_data_aux (key : String) :
    ∀ (lists : List (List (String × Meta))) (st : FuseState),
      ((lists.foldl fuseList st).doc_data.lookup key) =
        (st.doc_data.lookup key).or (firstSeenIn lists.flatten key) := by
  intro lists
  induction lists with
  | nil => intro st; simp [firstSeenIn, List.find?]
  | cons l rest ih =>
    intro st
    simp only [List.foldl_cons]
    rw [ih, fuseList_data st l key]
    rw [Option.or_assoc]
    congr 1
    simp only [List.flatten_cons, firstSeenIn, List.find?_append]

/-- C5 first-seen fact: the recorded payload of a key is the first (text,
metadata) carrying that key across all result lists in traversal order. -/
theorem fuseAll_data (lists : List (List (String × Meta))) (key : String) :
    (fuseAll lists).doc_data.lookup key = firstSeenIn lists.flatten key := by
  rw [fuseAll, fuseAll_data_aux]
  simp [List.lookup]

/-- C5: multi-query fusion queries the vector store once for the original
question plus once per kept variant; each unique passage key accumulates
1 / (r + 60) for every appearance at 0-based rank r in any result list
(the dict keys stay distinct and each stored value is that fused sum); the
first-seen (text, metadata) is kept per key; the output keeps the top
top_k keys sorted by fused score descending with pseudo-distance
1 - fused_score; and concretely a passage at rank 0 in two result lists
scores 2 * (1/60), strictly above a passage appearing once at rank 0
(1/60), and is ranked first. -/
theorem multi_query_fusion_contract :
    (∀ (env : RagEnv) (s : RagState) (text : String) (xs : List String),
      env.llm s.llmK = some text →
      env.variantParse text = ParsedVariants.strs xs →
      (multi_query_retrieve env s).2.storeK =
        s.storeK + (1 + min MULTI_QUERY_VARIANTS xs.length) ∧
      (multi_query_retrieve env s).2.llmK = s.llmK + 1 ∧
      ∃ r : StoreResult, (multi_query_retrieve env s).1 = Except.ok r) ∧
    (∀ (lists : List (List (String × Meta))) (key : String),
      scoreOf (fuseAll lists).doc_scores key = rrfSpecScore lists key ∧
      ((fuseAll lists).doc_scores.map Prod.fst).Nodup ∧
      (∀ (k : String) (v : ℚ), (k, v) ∈ (fuseAll lists).doc_scores →
        v = scoreOf (fuseAll lists).doc_scores k)) ∧
    (∀ (lists : List (List (String × Meta))) (key : String),
      (fuseAll lists).doc_data.lookup key = firstSeenIn lists.flatten key) ∧
    (∀ (lists : List (List (String × Meta))) (top_k : Nat),
      (multiQuerySelect lists top_k).documents.length =
        min top_k (fuseAll lists).doc_scores.length ∧
      (multiQuerySelect lists top_k).distances =
        ((stableRankDesc ((fuseAll lists).doc_scores.map (fun p => p.2)) 0).take
          top_k).map
          (fun i => 1 - ((fuseAll lists).doc_scores.getD i ("", 0)).2) ∧
      List.Pairwise (fun i j =>
          ((fuseAll lists).doc_scores.map (fun p => p.2)).getD j 0 <
            ((fuseAll lists).doc_scores.map (fun p => p.2)).getD i 0 ∨
          (((fuseAll lists).doc_scores.map (fun p => p.2)).getD i 0 =
            ((fuseAll lists).doc_scores.map (fun p => p.2)).getD j 0 ∧ i ≤ j))
        ((stableRankDesc ((fuseAll lists).doc_scores.map (fun p => p.2)) 0).take
          top_k)) ∧
    (scoreOf (fuseAll [[("dA", ⟨"A", 0⟩)], [("dA", ⟨"A", 0⟩)],
        [("dB", ⟨"B", 0⟩)]]).doc_scores "A_0" = 2 * (1 / 60) ∧
      scoreOf (fuseAll [[("dA", ⟨"A", 0⟩)], [("dA", ⟨"A", 0⟩)],
        [("dB", ⟨"B", 0⟩)]]).doc_scores "B_0" = 1 / 60 ∧
      (1 : ℚ) / 60 < 2 * (1 / 60) ∧
      (multiQuerySelect [[("dA", ⟨"A", 0⟩)], [("dA", ⟨"A", 0⟩)],
        [("dB", ⟨"B", 0⟩)]] TOP_K).documents = ["dA", "dB"] ∧
      (multiQuerySelect [[("dA", ⟨"A", 0⟩)], [("dA", ⟨"A", 0⟩)],
        [("dB", ⟨"B", 0⟩)]] TOP_K).distances = [1 - 1/30, 1 - 1/60]) := by
  refine ⟨?_, ?_, ?_, ?_, ?_⟩
  · intro env s text xs hllm hparse
    refine ⟨?_, ?_, ?_⟩
    · simp [multi_query_retrieve, callLLM, hllm, hparse, List.length_take]
    · simp [multi_query_retrieve, callLLM, hllm, hparse]
    · refine ⟨multiQuerySelect ((List.range (1 + min MULTI_QUERY_VARIANTS xs.length)).map
        (fun i => (env.store (s.storeK + i)).documents.zip
          (env.store (s.storeK + i)).metadatas)) TOP_K, ?_⟩
      simp [multi_query_retrieve, callLLM, hllm, hparse, List.length_take]
  · intro lists key
    exact ⟨fuseAll_score lists key, fuseAll_nodup lists,
      fun k v hmem => entry_eq_scoreOf _ k v (fuseAll_nodup lists) hmem⟩
  · intro lists key
    exact fuseAll_data lists key
  · intro lists top_k
    refine ⟨?_, rfl, ?_⟩
    · simp only [multiQuerySelect, List.length_map, List.length_take]
      rw [(stableRankDesc_perm _ 0).length_eq, List.length_range, List.length_map]
    · exact List.Pairwise.sublist (List.take_sublist top_k _)
        (stableRankDesc_sorted ((fuseAll lists).doc_scores.map (fun p => p.2)) 0)
  · have hA : chunkId ⟨"A", 0⟩ = "A_0" := by decide
    have hB : chunkId ⟨"B", 0⟩ = "B_0" := by decide
    have hfuse : fuseAll [[("dA", ⟨"A", 0⟩)], [("dA", ⟨"A", 0⟩)], [("dB", ⟨"B", 0⟩)]] =
        ⟨[("A_0", 1/30), ("B_0", 1/60)],
         [("A_0", "dA", ⟨"A", 0⟩), ("B_0", "dB", ⟨"B", 0⟩)]⟩ := by
      norm_num [fuseAll, fuseList, rrfInsert, dataInsert, hA, hB, List.enum,
        List.enumFrom]
      decide
    refine ⟨?_, ?_, by norm_num, ?_, ?_⟩
    · rw [hfuse]
      norm_num [scoreOf_cons, scoreOf_nil]
      decide
    · rw [hfuse]
      norm_num [scoreOf_cons, scoreOf_nil]
      decide
    · norm_num [multiQuerySelect, hfuse, stableRankDesc, List.insertionSort,
        List.orderedInsert, TOP_K, List.lookup]
      decide
    · norm_num [multiQuerySelect, hfuse, stableRankDesc, List.insertionSort,
        List.orderedInsert, TOP_K, List.lookup]

/-- Witness for C5: one variant-phrasing reply kept, two store queries. -/
theorem multi_query_fusion_contract_witness :
    (multi_query_retrieve
      ⟨fun _ => some "variants",
       fun _ => ⟨[], [], []⟩,
       fun _ => ParsedScores.fail,
       fun _ => ParsedVariants.strs ["alt one"]⟩ ⟨0, 0⟩).2.storeK =
        0 + (1 + min MULTI_QUERY_VARIANTS 1) ∧
    (multi_query_retrieve
      ⟨fun _ => some "variants",
       fun _ => ⟨[], [], []⟩,
       fun _ => ParsedScores.fail,
       fun _ => ParsedVariants.strs ["alt one"]⟩ ⟨0, 0⟩).2.llmK = 0 + 1 ∧
    ∃ r : StoreResult,
      (multi_query_retrieve
        ⟨fun _ => some "variants",
         fun _ => ⟨[], [], []⟩,
         fun _ => ParsedScores.fail,
         fun _ => ParsedVariants.strs ["alt one"]⟩ ⟨0, 0⟩).1 = Except.ok r :=
  multi_query_fusion_contract.1 _ ⟨0, 0⟩ "variants" ["alt one"] rfl rfl

/-- With parallel input lists, one citation is built per passage. -/
theorem build_citations_length :
    ∀ (docs : List String) (metas : List Meta) (dists : List ℚ),
      docs.length = metas.length → docs.length = dists.length →
      (build_citations docs metas dists).length = docs.length := by
  intro docs
  induction docs with
  | nil => intro metas dists _ _; simp [build_citations]
  | cons doc docs ih =>
    intro metas dists h1 h2
    cases metas with
    | nil => simp at h1
    | cons meta metas =>
      cases dists with
      | nil => simp at h2
      | cons dist dists =>
        simp only [build_citations, List.length_cons]
        rw [ih metas dists (by simpa using h1) (by simpa using h2)]

/-- Every strategy preserves the parallel-lists contract of the store. -/
theorem retrieve_lengths (technique : String) (env : RagEnv) (s : RagState)
    (hstore : ∀ k, (env.store k).documents.length = (env.store k).metadatas.length ∧
      (env.store k).documents.length = (env.store k).distances.length) :
    ∀ (r : StoreResult) (s1 : RagState),
      retrieve technique env s = (Except.ok r, s1) →
      r.documents.length = r.metadatas.length ∧
      r.documents.length = r.distances.length := by
  intro r s1 h
  by_cases ht1 : technique = "hyde"
  · simp only [retrieve, ht1, if_true] at h
    cases hv : env.llm s.llmK with
    | none => simp [hyde_retrieve, callLLM, hv] at h
    | some text =>
      simp only [hyde_retrieve, callLLM, callStore, hv] at h
      obtain ⟨hr, _⟩ := Prod.mk.inj h
      obtain rfl := Except.ok.inj hr
      exact hstore _
  · by_cases ht2 : technique = "reranking"
    · simp only [retrieve, ht1, ht2, if_true, if_false] at h
      by_cases hemp : (env.store s.storeK).documents = []
      · simp only [reranking_retrieve, callStore, hemp, if_pos, if_true] at h
        obtain ⟨hr, _⟩ := Prod.mk.inj h
        obtain rfl := Except.ok.inj hr
        exact hstore _
      · simp only [reranking_retrieve, callStore, hemp, if_false] at h
        cases hv : env.llm s.llmK with
        | none => simp [callLLM, hv] at h
        | some text =>
          simp only [callLLM, hv] at h
          obtain ⟨hr, _⟩ := Prod.mk.inj h
          obtain rfl := Except.ok.inj hr
          simp [rerankSelect, List.length_map]
    · by_cases ht3 : technique = "multi_query"
      · simp only [retrieve, ht1, ht2, ht3, if_true, if_false] at h
        cases hv : env.llm s.llmK with
        | none => simp [multi_query_retrieve, callLLM, hv] at h
        | some text =>
          simp only [multi_query_retrieve, callLLM, hv] at h
          obtain ⟨hr, _⟩ := Prod.mk.inj h
          obtain rfl := Except.ok.inj hr
          simp [multiQuerySelect, List.length_map]
      · simp only [retrieve, ht1, ht2, ht3, if_false] at h
        simp only [naive_retrieve, callStore] at h
        obtain ⟨hr, _⟩ := Prod.mk.inj h
        obtain rfl := Except.ok.inj hr
        exact hstore _

/-- C10: given the vector-store contract that the documents, metadatas and
distances lists have equal length, every successful RAGResponse satisfies
chunks_considered = len(citations), and both are 0 exactly when the
retrieval step returned no passages. -/
theorem query_chunks_citations_invariant
    (env : RagEnv) (s : RagState) (technique : String)
    (hstore : ∀ k, (env.store k).documents.length = (env.store k).metadatas.length ∧
      (env.store k).documents.length = (env.store k).distances.length) :
    ∀ (resp : RAGResponse) (s2 : RagState),
      query env technique s = (Except.ok resp, s2) →
      resp.chunks_considered = resp.citations.length ∧
      (∀ (r : StoreResult) (s1 : RagState),
        retrieve (resolveTechnique technique) env s = (Except.ok r, s1) →
        (resp.chunks_considered = 0 ↔ r.documents = [])) := by
  intro resp s2 h
  rcases hr : retrieve (resolveTechnique technique) env s with ⟨res, s1⟩
  cases res with
  | error e => simp [query, hr] at h
  | ok r =>
    by_cases hemp : r.documents = []
    · simp only [query, hr, hemp, if_pos, if_true] at h
      obtain ⟨hresp, _⟩ := Prod.mk.inj h
      obtain rfl := Except.ok.inj hresp
      refine ⟨rfl, ?_⟩
      intro r2 s12 h2
      obtain ⟨hr2, _⟩ := Prod.mk.inj h2
      obtain rfl := Except.ok.inj hr2
      simpa using hemp
    · simp only [query, hr, hemp, if_false] at h
      cases hv : env.llm s1.llmK with
      | none => simp [callLLM, hv] at h
      | some text =>
        simp only [callLLM, hv] at h
        obtain ⟨hresp, _⟩ := Prod.mk.inj h
        obtain rfl := Except.ok.inj hresp
        have hlen := retrieve_lengths (resolveTechnique technique) env s hstore r s1 hr
        refine ⟨?_, ?_⟩
        · simp only []
          rw [build_citations_length r.documents r.metadatas r.distances hlen.1 hlen.2]
        · intro r2 s12 h2
          obtain ⟨hr2, _⟩ := Prod.mk.inj h2
          obtain rfl := Except.ok.inj hr2
          simp only []
          rw [List.length_eq_zero]

/-- Witness for C10: a naive run over a one-chunk store. -/
theorem query_chunks_citations_invariant_witness :
    ((⟨"ans", [⟨"s", "a", 0, round4 (max 0 (1 - 1/2))⟩], "naive", 1⟩ :
        RAGResponse).chunks_considered =
      (⟨"ans", [⟨"s", "a", 0, round4 (max 0 (1 - 1/2))⟩], "naive", 1⟩ :
        RAGResponse).citations.length) :=
  (query_chunks_citations_invariant
    ⟨fun _ => some "ans", fun _ => ⟨["a"], [⟨"s", 0⟩], [1/2]⟩,
     fun _ => ParsedScores.fail, fun _ => ParsedVariants.fail⟩
    ⟨0, 0⟩ "naive" (fun _ => ⟨rfl, rfl⟩)
    ⟨"ans", [⟨"s", "a", 0, round4 (max 0 (1 - 1/2))⟩], "naive", 1⟩
    ⟨1, 1⟩ rfl).1

/-- Fusing empty result lists is a no-op. -/
theorem foldl_fuseList_empty :
    ∀ (ls : List (List (String × Meta))) (st : FuseState),
      (∀ l ∈ ls, l = []) → ls.foldl fuseList st = st := by
  intro ls
  induction ls with
  | nil => intro st _; rfl
  | cons l rest ih =>
    intro st hall
    have hl : l = [] := hall l (by simp)
    subst hl
    simp only [List.foldl_cons]
    rw [show fuseList st [] = st from rfl]
    exact ih st (fun l2 h2 => hall l2 (by simp [h2]))

/-- Selecting from empty result lists yields the empty store result. -/
theorem multiQuerySelect_empty (ls : List (List (String × Meta))) (top_k : Nat)
    (hall : ∀ l ∈ ls, l = []) : multiQuerySelect ls top_k = ⟨[], [], []⟩ := by
  have hfuse : fuseAll ls = ⟨[], []⟩ := foldl_fuseList_empty ls ⟨[], []⟩ hall
  simp [multiQuerySelect, hfuse, stableRankDesc]

/-- C1 (amended): if the vector store returns zero passages, then for every
technique query returns the fixed informational answer with citations = []
and chunks_considered = 0, and the final answer-generation LLM call is
never made; naive and reranking make no LLM call at all, while hyde and
multi_query still make exactly their one strategy-internal LLM call
(hypothesis / variant generation), which happens before retrieval. -/
theorem query_empty_store_contract (env : RagEnv) (s : RagState)
    (hstore : ∀ k, env.store k = ⟨[], [], []⟩) :
    (query env "naive" s = (Except.ok ⟨NO_DOCS_MSG, [], "naive", 0⟩,
      ⟨s.llmK, s.storeK + 1⟩)) ∧
    (query env "reranking" s = (Except.ok ⟨NO_DOCS_MSG, [], "reranking", 0⟩,
      ⟨s.llmK, s.storeK + 1⟩)) ∧
    (∀ text : String, env.llm s.llmK = some text →
      query env "hyde" s = (Except.ok ⟨NO_DOCS_MSG, [], "hyde", 0⟩,
        ⟨s.llmK + 1, s.storeK + 1⟩)) ∧
    (∀ text : String, env.llm s.llmK = some text →
      ∃ nq : Nat, query env "multi_query" s =
        (Except.ok ⟨NO_DOCS_MSG, [], "multi_query", 0⟩,
         ⟨s.llmK + 1, s.storeK + nq⟩)) := by
  refine ⟨?_, ?_, ?_, ?_⟩
  · simp [query, resolveTechnique, retrieve, naive_retrieve, callStore, hstore]
  · simp [query, resolveTechnique, retrieve, reranking_retrieve, callStore, hstore]
  · intro text hllm
    simp [query, resolveTechnique, retrieve, hyde_retrieve, callLLM, callStore,
      hllm, hstore]
  · intro text hllm
    refine ⟨1 + ((match env.variantParse text with
      | ParsedVariants.strs xs => xs
      | _ => ([] : List String)).take MULTI_QUERY_VARIANTS).length, ?_⟩
    have hsel : multiQuerySelect
        ((List.range (1 + ((match env.variantParse text with
          | ParsedVariants.strs xs => xs
          | _ => ([] : List String)).take MULTI_QUERY_VARIANTS).length)).map
          (fun i => (env.store (s.storeK + i)).documents.zip
            (env.store (s.storeK + i)).metadatas)) TOP_K = ⟨[], [], []⟩ := by
      refine multiQuerySelect_empty _ TOP_K ?_
      intro l hl
      rcases List.mem_map.mp hl with ⟨i, _, rfl⟩
      simp [hstore]
    have hret : retrieve "multi_query" env s =
        (Except.ok (⟨[], [], []⟩ : StoreResult),
         ⟨s.llmK + 1, s.storeK + (1 + ((match env.variantParse text with
           | ParsedVariants.strs xs => xs
           | _ => ([] : List String)).take MULTI_QUERY_VARIANTS).length)⟩) := by
      have hunfold : retrieve "multi_query" env s = multi_query_retrieve env s := by
        simp [retrieve]
      rw [hunfold]
      simp only [multi_query_retrieve, callLLM, hllm]
      rw [hsel]
    simp [query, resolveTechnique, hret]

/-- Witness for C1: a concrete empty-store environment run with the naive
and hyde techniques. -/
theorem query_empty_store_contract_witness :
    (query ⟨fun _ => some "h", fun _ => ⟨[], [], []⟩,
      fun _ => ParsedScores.fail, fun _ => ParsedVariants.fail⟩ "naive" ⟨0, 0⟩ =
      (Except.ok ⟨NO_DOCS_MSG, [], "naive", 0⟩, ⟨0, 0 + 1⟩)) ∧
    (query ⟨fun _ => some "h", fun _ => ⟨[], [], []⟩,
      fun _ => ParsedScores.fail, fun _ => ParsedVariants.fail⟩ "hyde" ⟨0, 0⟩ =
      (Except.ok ⟨NO_DOCS_MSG, [], "hyde", 0⟩, ⟨0 + 1, 0 + 1⟩)) :=
  ⟨(query_empty_store_contract
      ⟨fun _ => some "h", fun _ => ⟨[], [], []⟩,
       fun _ => ParsedScores.fail, fun _ => ParsedVariants.fail⟩ ⟨0, 0⟩
      (fun _ => rfl)).1,
   (query_empty_store_contract
      ⟨fun _ => some "h", fun _ => ⟨[], [], []⟩,
       fun _ => ParsedScores.fail, fun _ => ParsedVariants.fail⟩ ⟨0, 0⟩
      (fun _ => rfl)).2.2.1 "h" rfl⟩

/-- C1 counterexample: with an empty vector store the hyde strategy still
makes its hypothesis-generation LLM call before retrieval: query returns
the canned empty-store response and zero citations, yet exactly one
llm_client.complete call was made while serving the request, so the claim
that the text-generation API is never called (including strategy-internal
calls) fails. -/
theorem empty_store_hyde_llm_called_counterexample :
    (query ⟨fun _ => some "hypo", fun _ => ⟨[], [], []⟩,
      fun _ => ParsedScores.fail, fun _ => ParsedVariants.fail⟩ "hyde" ⟨0, 0⟩).1 =
      Except.ok ⟨NO_DOCS_MSG, [], "hyde", 0⟩ ∧
    (query ⟨fun _ => some "hypo", fun _ => ⟨[], [], []⟩,
      fun _ => ParsedScores.fail, fun _ => ParsedVariants.fail⟩ "hyde" ⟨0, 0⟩).2.llmK = 1 ∧
    (1 : Nat) ≠ 0 :=
  ⟨rfl, rfl, by decide⟩

end Rag
